import Mathlib

/-!
Shallow embedding of the LiquidFun particle-system core
(Box2D/Particle/b2ParticleSystem.cpp) and proofs about it.

Modelling conventions:
- float32 values are modelled as exact rationals; square roots and
  trigonometric values (external numeric kernels b2Sqrt / b2InvSqrt /
  sinf / cosf) are passed in as explicit oracle functions, and theorems
  that need exactness of a root state it as a hypothesis.
- int32 index fields keep their signed type and are modelled as integers;
  the sentinel b2_invalidParticleIndex is -1, exactly as in the code.
- uint32 bit masks are modelled as natural numbers with arithmetic mod 2^32
  made explicit where wrap-around can occur (tag computations).
- particle-indexed buffers are lists whose meaningful prefix has length
  count; allocator capacities of the plain arrays (proxy/contact/pair/triad)
  are bookkeeping with no observable effect and are not tracked.
- external collaborators (the rigid-body world, shapes, fixtures, the
  Voronoi generator, destruction listeners, allocators) are modelled as
  oracle parameters, mirroring the calls the core makes to them.
-/

namespace LiquidFun

/-- Two-dimensional vector (models b2Vec2). -/
structure Vec2 where
  x : ℚ
  y : ℚ
deriving DecidableEq

namespace Vec2

def add (a b : Vec2) : Vec2 := ⟨a.x + b.x, a.y + b.y⟩

def sub (a b : Vec2) : Vec2 := ⟨a.x - b.x, a.y - b.y⟩

def smul (s : ℚ) (a : Vec2) : Vec2 := ⟨s * a.x, s * a.y⟩

def dot (a b : Vec2) : ℚ := a.x * b.x + a.y * b.y

def cross (a b : Vec2) : ℚ := a.x * b.y - a.y * b.x

/-- b2Cross of a scalar and a vector: (-s*v.y, s*v.x). -/
def crossSV (s : ℚ) (a : Vec2) : Vec2 := ⟨-s * a.y, s * a.x⟩

def zero : Vec2 := ⟨0, 0⟩

end Vec2

/-- Rotation stored as (sin, cos), models b2Rot. -/
structure Rot where
  s : ℚ
  c : ℚ
deriving DecidableEq

/-- Models b2Transform: a translation and a rotation. -/
structure Transform where
  p : Vec2
  q : Rot
deriving DecidableEq

/-- b2Mul(b2Transform, b2Vec2). -/
def Transform.mulV (T : Transform) (v : Vec2) : Vec2 :=
  ⟨T.q.c * v.x - T.q.s * v.y + T.p.x, T.q.s * v.x + T.q.c * v.y + T.p.y⟩

/-- Axis-aligned bounding box (models b2AABB). -/
structure AABB where
  lowerBound : Vec2
  upperBound : Vec2
deriving DecidableEq

/-- Timestep data consumed by the particle solver (models b2TimeStep). -/
structure b2TimeStep where
  dt : ℚ
  inv_dt : ℚ
deriving DecidableEq

/- Particle flag bits.  Modelled from the spec: the enum b2ParticleFlag lives
in b2Particle.h, which is not part of the provided source; the spec lists the
flags (wall, spring, elastic, viscous, powder, tensile, color-mixing,
destruction-listener, barrier, static-pressure, zombie) and the values below
are the upstream bit assignments. -/

def b2_zombieParticle : ℕ := 2

def b2_wallParticle : ℕ := 4

def b2_springParticle : ℕ := 8

def b2_elasticParticle : ℕ := 16

def b2_viscousParticle : ℕ := 32

def b2_powderParticle : ℕ := 64

def b2_tensileParticle : ℕ := 128

def b2_colorMixingParticle : ℕ := 256

def b2_destructionListener : ℕ := 512

def b2_barrierParticle : ℕ := 1024

def b2_staticPressureParticle : ℕ := 2048

/- Group flag bits.  Modelled from the spec: the enum b2ParticleGroupFlag
lives in b2ParticleGroup.h (not in the provided source); the spec lists
solid, rigid, canBeEmpty, willBeDestroyed, needsUpdateDepth. -/

def b2_solidParticleGroup : ℕ := 1

def b2_rigidParticleGroup : ℕ := 2

def b2_particleGroupCanBeEmpty : ℕ := 4

def b2_particleGroupWillBeDestroyed : ℕ := 8

def b2_particleGroupNeedsUpdateDepth : ℕ := 16

/- Tunable constants from b2Settings.h.  Modelled from the spec: the header
is not part of the provided source; the spec names them as definition-time
parameters (minParticleBufferCapacity, particleStride, maxTriadDistance,
invalidParticleIndex) and the values below are the upstream ones. -/

def b2_minParticleBufferCapacity : ℕ := 256

def b2_invalidParticleIndex : ℤ := -1

def b2_particleStride : ℚ := 3 / 4

def b2_maxTriadDistanceSquared : ℚ := 4

/- Pair/triad eligibility masks.  Modelled from the spec: k_pairFlags and
k_triadFlags are static members declared in b2ParticleSystem.h (not in the
provided source); the spec says pairs serve the spring kernel and triads the
elastic kernel. -/

def k_pairFlags : ℕ := b2_springParticle

def k_triadFlags : ℕ := b2_elasticParticle

/-- Complement on the low 32 bits, the effect of the C operator on a uint32. -/
def compl32 (a : ℕ) : ℕ := 4294967295 ^^^ a

/-- Proxy entry of the spatial hash: a uint32 tag and an int32 particle
index. -/
structure Proxy where
  tag : ℕ
  index : ℤ
deriving DecidableEq

/-- Particle-particle contact (models b2ParticleContact). -/
structure b2ParticleContact where
  indexA : ℤ
  indexB : ℤ
  weight : ℚ
  normal : Vec2
  flags : ℕ
deriving DecidableEq

/-- Particle-body contact (models b2ParticleBodyContact; the body and
fixture pointers are modelled as opaque identifiers). -/
structure b2ParticleBodyContact where
  index : ℤ
  bodyId : ℕ
  fixtureId : ℕ
  weight : ℚ
  normal : Vec2
  mass : ℚ
deriving DecidableEq

/-- Spring pair record. -/
structure Pair where
  indexA : ℤ
  indexB : ℤ
  flags : ℕ
  strength : ℚ
  distance : ℚ
deriving DecidableEq

/-- Elastic triad record. -/
structure Triad where
  indexA : ℤ
  indexB : ℤ
  indexC : ℤ
  flags : ℕ
  strength : ℚ
  pa : Vec2
  pb : Vec2
  pc : Vec2
  ka : ℚ
  kb : ℚ
  kc : ℚ
  s : ℚ
deriving DecidableEq

/-- Particle group (models b2ParticleGroup; the heap identity of the group
object is modelled by an id so that m_groupBuffer entries can refer to it). -/
structure b2ParticleGroup where
  id : ℕ
  firstIndex : ℤ
  lastIndex : ℤ
  groupFlags : ℕ
  strength : ℚ
  userData : ℕ
  transform : Transform
deriving DecidableEq

/-- ContainsParticle from b2ParticleGroup.h.  Modelled from the spec: a group
owns the contiguous index range [firstIndex, lastIndex). -/
def b2ParticleGroup.containsParticle (g : b2ParticleGroup) (i : ℤ) : Bool :=
  g.firstIndex ≤ i && i < g.lastIndex

/-- The particle system state: the fields of class b2ParticleSystem that the
modelled operations read or write.  The world lock flag stands for
m_world->IsLocked(). -/
structure b2ParticleSystem where
  locked : Bool
  allParticleFlags : ℕ
  needsUpdateAllParticleFlags : Bool
  allGroupFlags : ℕ
  needsUpdateAllGroupFlags : Bool
  strictContactCheck : Bool
  density : ℚ
  inverseDensity : ℚ
  gravityScale : ℚ
  particleDiameter : ℚ
  inverseDiameter : ℚ
  squaredDiameter : ℚ
  count : ℕ
  internalAllocatedCapacity : ℕ
  maxCount : ℕ
  flagsData : List ℕ
  flagsUserCap : ℕ
  positionData : List Vec2
  positionUserCap : ℕ
  velocityData : List Vec2
  velocityUserCap : ℕ
  weightData : List ℚ
  staticPressureData : Option (List ℚ)
  accumulationData : List ℚ
  accumulation2Data : Option (List Vec2)
  depthData : Option (List ℚ)
  colorData : Option (List ℕ)
  colorUserCap : ℕ
  userDataData : Option (List ℕ)
  userDataUserCap : ℕ
  groupIdxData : List (Option ℕ)
  proxies : List Proxy
  contacts : List b2ParticleContact
  bodyContacts : List b2ParticleBodyContact
  pairs : List Pair
  triads : List Triad
  groupCount : ℕ
  groupList : List b2ParticleGroup
  nextGroupId : ℕ
deriving DecidableEq

namespace b2ParticleSystem

/-- Read a particle flag word (reads are in-bounds in well-formed states). -/
def getFlags (st : b2ParticleSystem) (i : ℤ) : ℕ :=
  st.flagsData.getD i.toNat 0

def getPos (st : b2ParticleSystem) (i : ℤ) : Vec2 :=
  st.positionData.getD i.toNat Vec2.zero

def getVel (st : b2ParticleSystem) (i : ℤ) : Vec2 :=
  st.velocityData.getD i.toNat Vec2.zero

/-- GetParticleStride: b2_particleStride * m_particleDiameter. -/
def getParticleStride (st : b2ParticleSystem) : ℚ :=
  b2_particleStride * st.particleDiameter

/-- GetParticleMass: m_density * stride * stride. -/
def getParticleMass (st : b2ParticleSystem) : ℚ :=
  let stride := st.getParticleStride
  st.density * stride * stride

/-- GetParticleInvMass: the source returns
1.777777f * m_inverseDensity * m_inverseDiameter * m_inverseDiameter with a
hard-coded decimal constant. -/
def getParticleInvMass (st : b2ParticleSystem) : ℚ :=
  (1777777 / 1000000) * st.inverseDensity * st.inverseDiameter *
    st.inverseDiameter

/-- GetCriticalVelocity: m_particleDiameter * step.inv_dt. -/
def getCriticalVelocity (st : b2ParticleSystem) (step : b2TimeStep) : ℚ :=
  st.particleDiameter * step.inv_dt

/-- GetCriticalVelocitySquared. -/
def getCriticalVelocitySquared (st : b2ParticleSystem) (step : b2TimeStep) :
    ℚ :=
  let velocity := st.getCriticalVelocity step
  velocity * velocity

/-- Write only the first n entries of a buffer through f, as a loop
for (i = 0; i < n; i++) does. -/
def mapFirstN (n : ℕ) (f : α → α) (l : List α) : List α :=
  (l.take n).map f ++ l.drop n

/-- LimitVelocity: clamp every particle velocity whose squared magnitude
exceeds the critical squared velocity, scaling by
b2Sqrt(criticalVelocitySquared / v2); the square root kernel is the oracle
sqrtQ. -/
def limitVelocity (sqrtQ : ℚ → ℚ) (st : b2ParticleSystem)
    (step : b2TimeStep) : b2ParticleSystem :=
  let criticalVelocitySquared := st.getCriticalVelocitySquared step
  { st with
    velocityData := mapFirstN st.count
      (fun v =>
        let v2 := Vec2.dot v v
        if v2 > criticalVelocitySquared then
          Vec2.smul (sqrtQ (criticalVelocitySquared / v2)) v
        else v)
      st.velocityData }

/-- LimitCapacity from the source: maxCount && capacity > maxCount ?
maxCount : capacity. -/
def limitCapacity (capacity maxCount : ℕ) : ℕ :=
  if maxCount ≠ 0 ∧ capacity > maxCount then maxCount else capacity

/-- Reallocation of a buffer to a larger capacity: the old contents are
copied (memcpy) and the fresh slots are modelled by the default value. -/
def growTo (cap : ℕ) (z : α) (l : List α) : List α :=
  l ++ List.replicate (cap - l.length) z

/-- The capacity clamping at the head of ReallocateInternalAllocatedBuffers:
LimitCapacity by maxCount and then by every user-supplied buffer capacity,
in source order. -/
def clampCapacity (st : b2ParticleSystem) (capacity : ℕ) : ℕ :=
  let capacity := limitCapacity capacity st.maxCount
  let capacity := limitCapacity capacity st.flagsUserCap
  let capacity := limitCapacity capacity st.positionUserCap
  let capacity := limitCapacity capacity st.velocityUserCap
  let capacity := limitCapacity capacity st.colorUserCap
  limitCapacity capacity st.userDataUserCap

/-- ReallocateInternalAllocatedBuffers: clamp the requested capacity by
maxCount and by every user-supplied buffer capacity, then grow all
particle-indexed buffers.  A buffer with a user-supplied capacity is kept;
a deferred buffer (staticPressure, accumulation2, depth, color, userData)
is reallocated only when it is currently allocated. -/
def reallocateInternalAllocatedBuffers (st : b2ParticleSystem)
    (capacityIn : ℕ) : b2ParticleSystem :=
  if st.internalAllocatedCapacity < st.clampCapacity capacityIn then
    let capacity := st.clampCapacity capacityIn
    { st with
      flagsData := if st.flagsUserCap = 0 then growTo capacity 0 st.flagsData
        else st.flagsData
      positionData := if st.positionUserCap = 0 then
          growTo capacity Vec2.zero st.positionData
        else st.positionData
      velocityData := if st.velocityUserCap = 0 then
          growTo capacity Vec2.zero st.velocityData
        else st.velocityData
      weightData := growTo capacity 0 st.weightData
      staticPressureData := st.staticPressureData.map (growTo capacity 0)
      accumulationData := growTo capacity 0 st.accumulationData
      accumulation2Data := st.accumulation2Data.map (growTo capacity Vec2.zero)
      depthData := st.depthData.map (growTo capacity 0)
      colorData := if st.colorUserCap = 0 then
          st.colorData.map (growTo capacity 0)
        else st.colorData
      userDataData := if st.userDataUserCap = 0 then
          st.userDataData.map (growTo capacity 0)
        else st.userDataData
      groupIdxData := growTo capacity none st.groupIdxData
      internalAllocatedCapacity := capacity }
  else st

/-- RequestParticleBuffer: lazily allocate a particle buffer, zero-filled to
the internal capacity, bootstrapping the capacity to the minimum when it is
still zero. -/
def requestParticleBuffer (st : b2ParticleSystem) (buf : Option (List α))
    (z : α) : b2ParticleSystem × List α :=
  match buf with
  | some l => (st, l)
  | none =>
    let st := if st.internalAllocatedCapacity = 0 then
        st.reallocateInternalAllocatedBuffers b2_minParticleBufferCapacity
      else st
    (st, List.replicate st.internalAllocatedCapacity z)

/-- SetParticleFlags: record whether union-flag caches must be refreshed,
lazily allocate the accumulation2 / color buffers on first use of the
tensile / color-mixing flags, and store the new flag word. -/
def setParticleFlags (st : b2ParticleSystem) (index : ℤ) (newFlags : ℕ) :
    b2ParticleSystem :=
  let oldFlags := st.getFlags index
  let st := if oldFlags &&& compl32 newFlags ≠ 0 then
      { st with needsUpdateAllParticleFlags := true }
    else st
  let st := if compl32 st.allParticleFlags &&& newFlags ≠ 0 then
      let st := if newFlags &&& b2_tensileParticle ≠ 0 then
          let r := requestParticleBuffer st st.accumulation2Data Vec2.zero
          { r.1 with accumulation2Data := some r.2 }
        else st
      let st := if newFlags &&& b2_colorMixingParticle ≠ 0 then
          let r := requestParticleBuffer st st.colorData 0
          { r.1 with colorData := some r.2 }
        else st
      { st with allParticleFlags := st.allParticleFlags ||| newFlags }
    else st
  { st with flagsData := st.flagsData.set index.toNat newFlags }

end b2ParticleSystem

/-- Particle creation parameters (models b2ParticleDef; the color is the
packed rgba word, zero when default, and userData is an opaque word, zero
when null). -/
structure b2ParticleDef where
  flags : ℕ
  position : Vec2
  velocity : Vec2
  color : ℕ
  userData : ℕ
deriving DecidableEq

/-- The integers from a (inclusive) to b (exclusive), the iteration space of
a loop for (i = a; i < b; i++). -/
def intRange (a b : ℤ) : List ℤ :=
  (List.range (b - a).toNat).map (fun k => a + Int.ofNat k)

namespace b2ParticleSystem

/-- CreateParticle: zero return when the world is locked; grow capacity by
doubling when full; invalid-index sentinel when still full; otherwise write
the new particle and append its proxy (the proxy tag is left to be computed
by the next broad-phase pass). -/
def createParticle (st : b2ParticleSystem) (pdef : b2ParticleDef) :
    ℤ × b2ParticleSystem :=
  if st.locked then (0, st) else
  let st := if st.count ≥ st.internalAllocatedCapacity then
      st.reallocateInternalAllocatedBuffers
        (if st.count ≠ 0 then 2 * st.count else b2_minParticleBufferCapacity)
    else st
  if st.count ≥ st.internalAllocatedCapacity then
    (b2_invalidParticleIndex, st)
  else
    let index := st.count
    let st := { st with
      count := st.count + 1
      flagsData := st.flagsData.set index 0
      positionData := st.positionData.set index pdef.position
      velocityData := st.velocityData.set index pdef.velocity
      weightData := st.weightData.set index 0
      staticPressureData := st.staticPressureData.map (fun l => l.set index 0)
      groupIdxData := st.groupIdxData.set index none
      depthData := st.depthData.map (fun l => l.set index 0) }
    let st := if st.colorData.isSome || pdef.color != 0 then
        let r := requestParticleBuffer st st.colorData 0
        { r.1 with colorData := some (r.2.set index pdef.color) }
      else st
    let st := if st.userDataData.isSome || pdef.userData != 0 then
        let r := requestParticleBuffer st st.userDataData 0
        { r.1 with userDataData := some (r.2.set index pdef.userData) }
      else st
    let st := { st with proxies := st.proxies ++ [(⟨0, (index : ℤ)⟩ : Proxy)] }
    let st := st.setParticleFlags (index : ℤ) pdef.flags
    ((index : ℤ), st)

/-- DestroyParticle: OR the zombie flag (and optionally the
destruction-listener flag) into the particle's flags. -/
def destroyParticle (st : b2ParticleSystem) (index : ℤ)
    (callDestructionListener : Bool) : b2ParticleSystem :=
  let fl := b2_zombieParticle
  let fl := if callDestructionListener then fl ||| b2_destructionListener
    else fl
  st.setParticleFlags index (st.getFlags index ||| fl)

/-- DestroyParticlesInGroup: no-op when locked, otherwise destroy every
particle of the group's range. -/
def destroyParticlesInGroup (st : b2ParticleSystem) (group : b2ParticleGroup)
    (callDestructionListener : Bool) : b2ParticleSystem :=
  if st.locked then st else
  (intRange group.firstIndex group.lastIndex).foldl
    (fun s i => s.destroyParticle i callDestructionListener) st

end b2ParticleSystem

/-- Shape type tag (models b2Shape::Type for the cases the core handles). -/
inductive ShapeType where
  | edge
  | chain
  | polygon
  | circle
deriving DecidableEq

/-- External interface of a shape (shape classes are collaborators outside
the core): child count, the child edge vertices for edge/chain shapes, AABB
computation and point membership. -/
structure ShapeModel where
  shapeType : ShapeType
  childCount : ℕ
  childEdge : ℕ → Vec2 × Vec2
  computeAABB : Transform → ℕ → AABB
  testPoint : Transform → Vec2 → Bool

namespace b2ParticleSystem

/-- DestroyParticlesInShape: zero return when locked; otherwise query the
host world's AABB (the oracle queryAABBParticles stands for b2World::QueryAABB
reporting particle indices) and mark zombie every reported particle whose
position the shape contains. -/
def destroyParticlesInShape (st : b2ParticleSystem) (shape : ShapeModel)
    (xf : Transform) (callDestructionListener : Bool)
    (queryAABBParticles : AABB → List ℤ) : ℤ × b2ParticleSystem :=
  if st.locked then (0, st) else
  let aabb := shape.computeAABB xf 0
  ((queryAABBParticles aabb).foldl
    (fun (acc : ℤ × b2ParticleSystem) index =>
      if shape.testPoint xf (acc.2.getPos index) then
        (acc.1 + 1, acc.2.destroyParticle index callDestructionListener)
      else acc)
    (0, st))

/-- ComputeParticleCollisionEnergy: sum vn*vn over contacts with approaching
relative normal velocity, times half the particle mass. -/
def computeParticleCollisionEnergy (st : b2ParticleSystem) : ℚ :=
  let sum_v2 := st.contacts.foldl
    (fun acc contact =>
      let a := contact.indexA
      let b := contact.indexB
      let n := contact.normal
      let v := Vec2.sub (st.getVel b) (st.getVel a)
      let vn := Vec2.dot v n
      if vn < 0 then acc + vn * vn else acc)
    0
  (1 / 2) * st.getParticleMass * sum_v2

end b2ParticleSystem

/- Spatial hash constants from the top of the source file:
xTruncBits = 12, yTruncBits = 12, tagBits = 32, yOffset = 1 << 11,
yShift = 20, xShift = 8, xScale = 256, xOffset = 524288. -/

def yTagOffset : ℕ := 2048

def yShift : ℕ := 20

def xShift : ℕ := 8

def xScale : ℕ := 256

def xTagOffset : ℕ := 524288

/-- Truncating cast of a float to uint32 for the in-range values the tag
computation produces (nonnegative, below 2^32). -/
def truncU32 (q : ℚ) : ℕ := (Int.toNat ⌊q⌋) % 4294967296

/-- computeTag: ((uint32)(y + yOffset) << yShift) + (uint32)(xScale*x +
xOffset), in uint32 arithmetic. -/
def computeTag (x y : ℚ) : ℕ :=
  (truncU32 (y + (yTagOffset : ℚ)) * 2 ^ yShift +
    truncU32 ((xScale : ℚ) * x + (xTagOffset : ℚ))) % 4294967296

/-- computeRelativeTag: tag + (y << yShift) + (x << xShift) in uint32
arithmetic (x and y are small signed steps). -/
def computeRelativeTag (tag : ℕ) (x y : ℤ) : ℕ :=
  (((tag : ℤ) + y * 2 ^ yShift + x * 2 ^ xShift) % 4294967296).toNat

/-- Proxy order used by std::sort.  Modelled from the spec: the comparison
operator lives in b2ParticleSystem.h (not in the provided source); the spec
says proxies are sorted by (tag, index) ascending. -/
def proxyOrder (a b : Proxy) : Prop :=
  a.tag < b.tag ∨ (a.tag = b.tag ∧ a.index ≤ b.index)

instance : DecidableRel proxyOrder := fun a b => by
  unfold proxyOrder
  infer_instance

instance : IsTotal Proxy proxyOrder := by
  constructor
  intro a b
  unfold proxyOrder
  omega

instance : IsTrans Proxy proxyOrder := by
  constructor
  intro a b c
  unfold proxyOrder
  omega

/-- Sorting of the proxy array (insertion sort; any sort consistent with the
comparator models std::sort, which fixes no order among tag-equal proxies). -/
def sortProxies (l : List Proxy) : List Proxy :=
  List.insertionSort proxyOrder l

namespace b2ParticleSystem

/-- First phase of UpdateContacts: recompute every proxy tag from the current
particle position. -/
def updateProxyTags (st : b2ParticleSystem) : List Proxy :=
  st.proxies.map (fun pr =>
    let p := st.getPos pr.index
    { pr with
      tag := computeTag (st.inverseDiameter * p.x) (st.inverseDiameter * p.y) })

end b2ParticleSystem

/-- The candidate-pair walk of UpdateContacts over the sorted proxy array:
position i is the outer cursor a, position c the persistent lower-row cursor.
The fuel argument counts the remaining outer iterations and is supplied as
the array length, so it never runs out. -/
def broadPhaseAux (ps : List Proxy) : ℕ → ℕ → ℕ → List (ℤ × ℤ)
  | 0, _, _ => []
  | fuel + 1, i, c =>
    match ps.get? i with
    | none => []
    | some a =>
      let rightTag := computeRelativeTag a.tag 1 0
      let inner1 := ((ps.drop (i + 1)).takeWhile
        (fun b => decide (b.tag ≤ rightTag))).map (fun b => (a.index, b.index))
      let bottomLeftTag := computeRelativeTag a.tag (-1) 1
      let c2 := c + ((ps.drop c).takeWhile
        (fun b => decide (b.tag < bottomLeftTag))).length
      let bottomRightTag := computeRelativeTag a.tag 1 1
      let inner2 := ((ps.drop c2).takeWhile
        (fun b => decide (b.tag ≤ bottomRightTag))).map
          (fun b => (a.index, b.index))
      inner1 ++ inner2 ++ broadPhaseAux ps fuel (i + 1) c2

/-- All candidate pairs enumerated by the broad-phase walk, in order. -/
def broadPhasePairs (ps : List Proxy) : List (ℤ × ℤ) :=
  broadPhaseAux ps ps.length 0 0

namespace b2ParticleSystem

/-- AddContact: append a contact exactly when the squared distance is below
the squared diameter.  The b2InvSqrt kernel is the oracle invSqrtQ; the
stored weight is 1 - distSq * invSqrt(distSq) * inverseDiameter and the
normal is invSqrt(distSq) * d, exactly as in the source. -/
def addContactOpt (invSqrtQ : ℚ → ℚ) (st : b2ParticleSystem) (a b : ℤ) :
    Option b2ParticleContact :=
  let d := Vec2.sub (st.getPos b) (st.getPos a)
  let distBtParticlesSq := Vec2.dot d d
  if distBtParticlesSq < st.squaredDiameter then
    let invD := invSqrtQ distBtParticlesSq
    some { indexA := a, indexB := b
           flags := st.getFlags a ||| st.getFlags b
           weight := 1 - distBtParticlesSq * invD * st.inverseDiameter
           normal := Vec2.smul invD d }
  else none

/-- b2ParticleContactIsZombie: the combined flags contain the zombie flag. -/
def contactIsZombie (contact : b2ParticleContact) : Bool :=
  decide (contact.flags &&& b2_zombieParticle = b2_zombieParticle)

/-- UpdateContacts: recompute tags, sort proxies, run the broad-phase walk
calling AddContact on every candidate pair, and, when exceptZombie holds,
compact out the contacts whose combined flags contain the zombie flag. -/
def updateContacts (invSqrtQ : ℚ → ℚ) (st : b2ParticleSystem)
    (exceptZombie : Bool) : b2ParticleSystem :=
  let sorted := sortProxies st.updateProxyTags
  let newContacts := (broadPhasePairs sorted).foldl
    (fun acc ab =>
      match addContactOpt invSqrtQ st ab.1 ab.2 with
      | some contact => acc ++ [contact]
      | none => acc)
    []
  let newContacts := if exceptZombie then
      newContacts.filter (fun contact => !(contactIsZombie contact))
    else newContacts
  { st with proxies := sorted, contacts := newContacts }

end b2ParticleSystem

/-- BodyContactCompare: particle index ascending, then weight decreasing. -/
def bodyContactCompare (lhs rhs : b2ParticleBodyContact) : Bool :=
  if lhs.index = rhs.index then decide (lhs.weight > rhs.weight)
  else decide (lhs.index < rhs.index)

def insertBodyContact (p : b2ParticleBodyContact) :
    List b2ParticleBodyContact → List b2ParticleBodyContact
  | [] => [p]
  | q :: rest =>
    if bodyContactCompare q p then q :: insertBodyContact p rest
    else p :: q :: rest

/-- Sorting of the body-contact array by BodyContactCompare (std::sort fixes
no order among equivalent entries; insertion sort picks the stable one). -/
def sortBodyContacts : List b2ParticleBodyContact →
    List b2ParticleBodyContact
  | [] => []
  | p :: rest => insertBodyContact p (sortBodyContacts rest)

/-- k_maxContactsPerPoint from b2ParticleBodyContactRemovePredicate. -/
def k_maxContactsPerPoint : ℕ := 3

/-- Mutable state of b2ParticleBodyContactRemovePredicate. -/
structure RemovePredState where
  lastIndex : ℤ
  currentContacts : ℕ
  discarded : ℕ
deriving DecidableEq

/-- One application of b2ParticleBodyContactRemovePredicate::operator():
reset the per-particle counter on a new particle index; discard once the
post-incremented counter exceeds k_maxContactsPerPoint; otherwise project
pos + normal * diameter * (1 - weight) and discard when the fixture's
TestPoint (the oracle testPoint, keyed by fixture id) rejects the point.
Returns the updated predicate state and whether the contact is removed. -/
def bodyContactRemovePredicate (testPoint : ℕ → Vec2 → Bool) (diameter : ℚ)
    (positions : List Vec2) (s : RemovePredState)
    (contact : b2ParticleBodyContact) : RemovePredState × Bool :=
  let s := if contact.index ≠ s.lastIndex then
      { s with currentContacts := 0, lastIndex := contact.index }
    else s
  if s.currentContacts > k_maxContactsPerPoint then
    ({ s with currentContacts := s.currentContacts + 1
              discarded := s.discarded + 1 }, true)
  else
    let s := { s with currentContacts := s.currentContacts + 1 }
    let n := Vec2.smul (diameter * (1 - contact.weight)) contact.normal
    let pos := Vec2.add (positions.getD contact.index.toNat Vec2.zero) n
    if !(testPoint contact.fixtureId pos) then
      ({ s with discarded := s.discarded + 1 }, true)
    else (s, false)

/-- std::remove_if with a stateful predicate applied once to each element in
order: the kept elements, in order. -/
def removeIfStateful (step : σ → α → σ × Bool) : σ → List α → List α
  | _, [] => []
  | s, x :: rest =>
    let r := step s x
    if r.2 then removeIfStateful step r.1 rest
    else x :: removeIfStateful step r.1 rest

namespace b2ParticleSystem

/-- RemoveSpuriousBodyContacts: sort by (particle asc, weight desc), then
remove the contacts the stateful predicate rejects. -/
def removeSpuriousBodyContacts (testPoint : ℕ → Vec2 → Bool)
    (st : b2ParticleSystem) : b2ParticleSystem :=
  let sorted := sortBodyContacts st.bodyContacts
  let kept := removeIfStateful
    (bodyContactRemovePredicate testPoint st.particleDiameter st.positionData)
    ⟨-1, 0, 0⟩ sorted
  { st with bodyContacts := kept }

end b2ParticleSystem

/-- Zombie test on a flag word: flags & b2_zombieParticle. -/
def isZombieFlags (f : ℕ) : Bool := decide (f &&& b2_zombieParticle ≠ 0)

/-- The newIndices array built by the first loop of SolveZombie: a zombie
slot gets the invalid sentinel, a survivor gets the running new count. -/
def zombieNewIndicesAux : List ℕ → ℤ → List ℤ
  | [], _ => []
  | f :: rest, newCount =>
    if isZombieFlags f then
      b2_invalidParticleIndex :: zombieNewIndicesAux rest newCount
    else newCount :: zombieNewIndicesAux rest (newCount + 1)

/-- Number of survivors (the final newCount of SolveZombie's first loop). -/
def survivorCount (fl : List ℕ) : ℕ := fl.countP (fun f => !(isZombieFlags f))

/-- The surviving entries of a buffer, selected by the flag prefix. -/
def survivorsOf (fl : List ℕ) (buf : List α) : List α :=
  ((fl.zip buf).filter (fun p => !(isZombieFlags p.1))).map Prod.snd

/-- In-place survivor compaction of a particle buffer: survivors of the
scanned prefix move down to the front; the slots from the new count on keep
their old contents (the source only writes indices below newCount). -/
def compactBuf (fl : List ℕ) (buf : List α) : List α :=
  survivorsOf fl buf ++ buf.drop (survivorCount fl)

/-- One buffer extends another by padding with a default value, the effect
of a capacity reallocation on list contents. -/
def extendsBy (z : α) (l l2 : List α) : Prop :=
  ∃ m, l2 = l ++ List.replicate m z

/-- The OR of all surviving flag words (SolveZombie's allParticleFlags). -/
def survivorFlagsOr (fl : List ℕ) : ℕ :=
  (fl.filter (fun f => !(isZombieFlags f))).foldl (fun a f => a ||| f) 0

/-- Read newIndices at an int32 index. -/
def newIdxAt (ni : List ℤ) (i : ℤ) : ℤ :=
  ni.getD i.toNat b2_invalidParticleIndex

namespace b2ParticleSystem

/-- SetParticleGroupFlags acting on a group value: schedule a depth update
when the solid bit changes, maintain the union-flag cache and its dirty bit,
and lazily allocate the depth buffer when the solid bit is first seen. -/
def setParticleGroupFlagsOn (st : b2ParticleSystem) (g : b2ParticleGroup)
    (flagsIn : ℕ) : b2ParticleSystem × b2ParticleGroup :=
  let newFlags := if (g.groupFlags ^^^ flagsIn) &&& b2_solidParticleGroup ≠ 0
    then flagsIn ||| b2_particleGroupNeedsUpdateDepth
    else flagsIn
  let st := if g.groupFlags &&& compl32 newFlags ≠ 0 then
      { st with needsUpdateAllGroupFlags := true }
    else st
  let st := if compl32 st.allGroupFlags &&& newFlags ≠ 0 then
      let st := if newFlags &&& b2_solidParticleGroup ≠ 0 then
          let r := requestParticleBuffer st st.depthData 0
          { r.1 with depthData := some r.2 }
        else st
      { st with allGroupFlags := st.allGroupFlags ||| newFlags }
    else st
  (st, { g with groupFlags := newFlags })

end b2ParticleSystem

/-- The (firstIndex, lastIndex, modified) accumulation of SolveZombie's group
loop over one group's original range. -/
def zombieGroupRange (ni : List ℤ) (newCount : ℕ) (g : b2ParticleGroup) :
    ℤ × ℤ × Bool :=
  (intRange g.firstIndex g.lastIndex).foldl
    (fun (acc : ℤ × ℤ × Bool) i =>
      let j := newIdxAt ni i
      if j ≥ 0 then (min acc.1 j, max acc.2.1 (j + 1), acc.2.2)
      else (acc.1, acc.2.1, true))
    ((newCount : ℤ), 0, false)

namespace b2ParticleSystem

/-- One iteration of SolveZombie's group-update loop, threading the system
state (for SetParticleGroupFlags side effects) and accumulating the updated
groups in order. -/
def solveZombieGroupStep (ni : List ℤ) (newCount : ℕ)
    (acc : b2ParticleSystem × List b2ParticleGroup) (g : b2ParticleGroup) :
    b2ParticleSystem × List b2ParticleGroup :=
  let st := acc.1
  let r := zombieGroupRange ni newCount g
  if r.1 < r.2.1 then
    let g := { g with firstIndex := r.1, lastIndex := r.2.1 }
    if r.2.2 ∧ g.groupFlags &&& b2_solidParticleGroup ≠ 0 then
      let p := st.setParticleGroupFlagsOn g
        (g.groupFlags ||| b2_particleGroupNeedsUpdateDepth)
      (p.1, acc.2 ++ [p.2])
    else (st, acc.2 ++ [g])
  else
    let g := { g with firstIndex := 0, lastIndex := 0 }
    if g.groupFlags &&& b2_particleGroupCanBeEmpty = 0 then
      let p := st.setParticleGroupFlagsOn g
        (g.groupFlags ||| b2_particleGroupWillBeDestroyed)
      (p.1, acc.2 ++ [p.2])
    else (st, acc.2 ++ [g])

end b2ParticleSystem

/-- Clear the m_groupBuffer entries of a destroyed group's range. -/
def nullGroupRange (gi : List (Option ℕ)) (first last : ℤ) :
    List (Option ℕ) :=
  (intRange first last).foldl (fun l i => l.set i.toNat none) gi

namespace b2ParticleSystem

/-- DestroyParticleGroup without the unlinking step (the caller removes the
group from the list): drop the group's flags, clear its members' group
references, decrement the group count.  SayGoodbye is an external effect. -/
def destroyParticleGroupAux (st : b2ParticleSystem) (g : b2ParticleGroup) :
    b2ParticleSystem :=
  let p := st.setParticleGroupFlagsOn g 0
  let st := p.1
  let st := { st with
    groupIdxData := nullGroupRange st.groupIdxData g.firstIndex g.lastIndex }
  { st with groupCount := st.groupCount - 1 }

/-- DestroyParticleGroup: the side effects plus unlinking from groupList. -/
def destroyParticleGroup (st : b2ParticleSystem) (g : b2ParticleGroup) :
    b2ParticleSystem :=
  let st := st.destroyParticleGroupAux g
  { st with groupList := st.groupList.eraseP (fun h => h.id == g.id) }

/-- SolveZombie's final loop: destroy every group flagged willBeDestroyed,
walking the list while unlinking the destroyed entries. -/
def solveZombieDestroyLoop : b2ParticleSystem → List b2ParticleGroup →
    b2ParticleSystem × List b2ParticleGroup
  | st, [] => (st, [])
  | st, g :: rest =>
    if g.groupFlags &&& b2_particleGroupWillBeDestroyed ≠ 0 then
      solveZombieDestroyLoop (st.destroyParticleGroupAux g) rest
    else
      let r := solveZombieDestroyLoop st rest
      (r.1, g :: r.2)

/-- The buffer-compaction phase of SolveZombie: compact every allocated
particle-indexed buffer in place by the scanned flag prefix. -/
def solveZombieCompact (flP : List ℕ) (st : b2ParticleSystem) :
    b2ParticleSystem :=
  { st with
    flagsData := compactBuf flP st.flagsData
    positionData := compactBuf flP st.positionData
    velocityData := compactBuf flP st.velocityData
    groupIdxData := compactBuf flP st.groupIdxData
    staticPressureData := st.staticPressureData.map (fun l => compactBuf flP l)
    depthData := st.depthData.map (fun l => compactBuf flP l)
    colorData := st.colorData.map (fun l => compactBuf flP l)
    userDataData := st.userDataData.map (fun l => compactBuf flP l) }

/-- The index-rewriting phase of SolveZombie: remap proxies, contacts, body
contacts, pairs and triads through newIndices and drop every entry that
refers to a destroyed particle. -/
def solveZombieRemap (ni : List ℤ) (st : b2ParticleSystem) :
    b2ParticleSystem :=
  { st with
    proxies := (st.proxies.map
        (fun (pr : Proxy) => { pr with index := newIdxAt ni pr.index })).filter
      (fun pr => decide (0 ≤ pr.index))
    contacts := (st.contacts.map
        (fun (ct : b2ParticleContact) => { ct with
          indexA := newIdxAt ni ct.indexA
          indexB := newIdxAt ni ct.indexB })).filter
      (fun ct => decide (0 ≤ ct.indexA) && decide (0 ≤ ct.indexB))
    bodyContacts := (st.bodyContacts.map
        (fun (ct : b2ParticleBodyContact) =>
          { ct with index := newIdxAt ni ct.index })).filter
      (fun ct => decide (0 ≤ ct.index))
    pairs := (st.pairs.map
        (fun (pr : Pair) => { pr with
          indexA := newIdxAt ni pr.indexA
          indexB := newIdxAt ni pr.indexB })).filter
      (fun pr => decide (0 ≤ pr.indexA) && decide (0 ≤ pr.indexB))
    triads := (st.triads.map
        (fun (tr : Triad) => { tr with
          indexA := newIdxAt ni tr.indexA
          indexB := newIdxAt ni tr.indexB
          indexC := newIdxAt ni tr.indexC })).filter
      (fun tr => decide (0 ≤ tr.indexA) && decide (0 ≤ tr.indexB) &&
        decide (0 ≤ tr.indexC)) }

/-- SolveZombie: build newIndices over the scanned prefix, compact every
allocated particle-indexed buffer in place, rewrite and compact proxies,
contacts, body contacts, pairs and triads, recompute every group's range,
update the particle count and the union-flag cache, and destroy the groups
flagged for destruction. -/
def solveZombie (st : b2ParticleSystem) : b2ParticleSystem :=
  let flP := st.flagsData.take st.count
  let ni := zombieNewIndicesAux flP 0
  let newCount := survivorCount flP
  let newAllParticleFlags := survivorFlagsOr flP
  let st := solveZombieCompact flP st
  let st := solveZombieRemap ni st
  let gl := st.groupList.foldl (solveZombieGroupStep ni newCount) (st, [])
  let st := { gl.1 with groupList := gl.2 }
  let st := { st with
    count := newCount
    allParticleFlags := newAllParticleFlags
    needsUpdateAllParticleFlags := false }
  let dl := solveZombieDestroyLoop st st.groupList
  { dl.1 with groupList := dl.2 }

end b2ParticleSystem

/-- Read a lazily allocated buffer at an index: an unallocated buffer reads
as the default everywhere. -/
def optD (buf : Option (List α)) (i : ℕ) (z : α) : α :=
  (buf.getD []).getD i z

/-- Extension between lazily allocated buffers: both unallocated, or both
allocated with the second padding the first. -/
def optExtendsBy (z : α) : Option (List α) → Option (List α) → Prop
  | none, none => True
  | some l1, some l2 => extendsBy z l1 l2
  | _, _ => False

namespace b2ParticleSystem

/-- The state components SolveZombie's group loop and destruction loop leave
intact, up to capacity reallocation padding: the fields a lazy depth-buffer
allocation (through ReallocateInternalAllocatedBuffers) may only extend. -/
def stepEq (s1 s2 : b2ParticleSystem) : Prop :=
  s2.count = s1.count ∧
  s2.allParticleFlags = s1.allParticleFlags ∧
  s2.needsUpdateAllParticleFlags = s1.needsUpdateAllParticleFlags ∧
  extendsBy 0 s1.flagsData s2.flagsData ∧
  extendsBy Vec2.zero s1.positionData s2.positionData ∧
  extendsBy Vec2.zero s1.velocityData s2.velocityData ∧
  optExtendsBy 0 s1.colorData s2.colorData ∧
  optExtendsBy 0 s1.userDataData s2.userDataData ∧
  s2.proxies = s1.proxies ∧
  s2.contacts = s1.contacts ∧
  s2.bodyContacts = s1.bodyContacts ∧
  s2.pairs = s1.pairs ∧
  s2.triads = s1.triads

/-- The postcondition of SolveZombie relating the output state to the input:
the new count is the survivor count; every particle-indexed buffer is the
compaction of the old one (up to reallocation padding); the union-flag cache
is the OR of the surviving flags and is marked clean; every stored index is a
live one; and every surviving group's range lies inside the new count, with
empty groups only surviving when they may be empty. -/
def SolveZombiePost (st st2 : b2ParticleSystem) : Prop :=
  st2.count = survivorCount (st.flagsData.take st.count) ∧
  extendsBy 0 (compactBuf (st.flagsData.take st.count) st.flagsData)
    st2.flagsData ∧
  extendsBy Vec2.zero (compactBuf (st.flagsData.take st.count)
    st.positionData) st2.positionData ∧
  extendsBy Vec2.zero (compactBuf (st.flagsData.take st.count)
    st.velocityData) st2.velocityData ∧
  optExtendsBy 0 (st.colorData.map
    (fun l => compactBuf (st.flagsData.take st.count) l)) st2.colorData ∧
  optExtendsBy 0 (st.userDataData.map
    (fun l => compactBuf (st.flagsData.take st.count) l)) st2.userDataData ∧
  st2.allParticleFlags = survivorFlagsOr (st.flagsData.take st.count) ∧
  st2.needsUpdateAllParticleFlags = false ∧
  (∀ pr ∈ st2.proxies, 0 ≤ pr.index ∧
    pr.index < (survivorCount (st.flagsData.take st.count) : ℤ)) ∧
  (∀ ct ∈ st2.contacts,
    (0 ≤ ct.indexA ∧
      ct.indexA < (survivorCount (st.flagsData.take st.count) : ℤ)) ∧
    (0 ≤ ct.indexB ∧
      ct.indexB < (survivorCount (st.flagsData.take st.count) : ℤ))) ∧
  (∀ ct ∈ st2.bodyContacts, 0 ≤ ct.index ∧
    ct.index < (survivorCount (st.flagsData.take st.count) : ℤ)) ∧
  (∀ pr ∈ st2.pairs,
    (0 ≤ pr.indexA ∧
      pr.indexA < (survivorCount (st.flagsData.take st.count) : ℤ)) ∧
    (0 ≤ pr.indexB ∧
      pr.indexB < (survivorCount (st.flagsData.take st.count) : ℤ))) ∧
  (∀ tr ∈ st2.triads,
    (0 ≤ tr.indexA ∧
      tr.indexA < (survivorCount (st.flagsData.take st.count) : ℤ)) ∧
    (0 ≤ tr.indexB ∧
      tr.indexB < (survivorCount (st.flagsData.take st.count) : ℤ)) ∧
    (0 ≤ tr.indexC ∧
      tr.indexC < (survivorCount (st.flagsData.take st.count) : ℤ))) ∧
  (∀ g ∈ st2.groupList,
    (0 ≤ g.firstIndex ∧
      g.lastIndex ≤ (survivorCount (st.flagsData.take st.count) : ℤ)) ∧
    g.groupFlags &&& b2_particleGroupWillBeDestroyed = 0 ∧
    (g.firstIndex < g.lastIndex ∨
      (g.firstIndex = 0 ∧ g.lastIndex = 0 ∧
        g.groupFlags &&& b2_particleGroupCanBeEmpty ≠ 0)))

/-- The scanned flag prefix of SolveZombie, named for the staged proofs. -/
def szFlP (st : b2ParticleSystem) : List ℕ := st.flagsData.take st.count

/-- The newIndices array of SolveZombie, named for the staged proofs. -/
def szNi (st : b2ParticleSystem) : List ℤ := zombieNewIndicesAux (szFlP st) 0

/-- SolveZombie after buffer compaction and index rewriting. -/
def szStage2 (st : b2ParticleSystem) : b2ParticleSystem :=
  solveZombieRemap (szNi st) (solveZombieCompact (szFlP st) st)

/-- The group-loop fold of SolveZombie over the staged state. -/
def szGl (st : b2ParticleSystem) : b2ParticleSystem × List b2ParticleGroup :=
  (szStage2 st).groupList.foldl
    (solveZombieGroupStep (szNi st) (survivorCount (szFlP st)))
    (szStage2 st, [])

/-- SolveZombie after the group loop, count and union-flag update. -/
def szStage4 (st : b2ParticleSystem) : b2ParticleSystem :=
  { (szGl st).1 with
    groupList := (szGl st).2
    count := survivorCount (szFlP st)
    allParticleFlags := survivorFlagsOr (szFlP st)
    needsUpdateAllParticleFlags := false }

/-- The destruction loop of SolveZombie over the staged state. -/
def szDl (st : b2ParticleSystem) : b2ParticleSystem × List b2ParticleGroup :=
  solveZombieDestroyLoop (szStage4 st) (szStage4 st).groupList

end b2ParticleSystem

/-- The external collaborators the core calls out to, bundled: the float
square-root kernels, sinf/cosf for b2Rot, the host world's AABB query over
particles, the Voronoi diagram generator (generators with their particle
indices and half-stride in, Delaunay triples out), and fixture point tests
keyed by fixture id. -/
structure Externals where
  sqrtQ : ℚ → ℚ
  invSqrtQ : ℚ → ℚ
  sinCos : ℚ → ℚ × ℚ
  queryAABBParticles : AABB → List ℤ
  voronoiNodes : List (Vec2 × ℤ) → ℚ → List (ℤ × ℤ × ℤ)
  testPoint : ℕ → Vec2 → Bool

/-- Particle group creation parameters (models b2ParticleGroupDef). -/
structure b2ParticleGroupDef where
  flags : ℕ
  groupFlags : ℕ
  position : Vec2
  angle : ℚ
  linearVelocity : Vec2
  angularVelocity : ℚ
  color : ℕ
  strength : ℚ
  shape : Option ShapeModel
  stride : ℚ
  particleCount : ℕ
  positionData : List Vec2
  userData : ℕ

namespace b2ParticleSystem

/-- CreateParticleForGroup: stamp one particle of the group at local point p,
with the velocity induced by the group's linear and angular velocity. -/
def createParticleForGroup (st : b2ParticleSystem)
    (groupDef : b2ParticleGroupDef) (xf : Transform) (p : Vec2) :
    b2ParticleSystem :=
  let particleDef : b2ParticleDef := {
    flags := groupDef.flags
    position := xf.mulV p
    velocity := Vec2.add groupDef.linearVelocity
      (Vec2.crossSV groupDef.angularVelocity
        (Vec2.sub (xf.mulV p) groupDef.position))
    color := groupDef.color
    userData := groupDef.userData }
  (st.createParticle particleDef).2

end b2ParticleSystem

/-- Number of iterations of the loop: while (x < limit) x += stride, started
at x = start.  A nonpositive stride would not terminate (the source assumes a
positive stride); the model returns 0 then. -/
def strideSteps (start limit stride : ℚ) : ℕ :=
  if 0 < stride then (Int.toNat ⌈(limit - start) / stride⌉) else 0

namespace b2ParticleSystem

/-- CreateParticlesStrokeShapeForGroup: walk the edge/chain children,
stamping particles along each edge at the stride, carrying the leftover edge
position from child to child.  Edge vertices and child counts come from the
shape oracle; edge length uses the square-root oracle. -/
def createParticlesStrokeShapeForGroup (ex : Externals)
    (st : b2ParticleSystem) (groupDef : b2ParticleGroupDef) (xf : Transform) :
    b2ParticleSystem :=
  match groupDef.shape with
  | none => st
  | some shape =>
    let stride := if groupDef.stride = 0 then st.getParticleStride
      else groupDef.stride
    ((List.range shape.childCount).foldl
      (fun (acc : b2ParticleSystem × ℚ) childIndex =>
        let e := shape.childEdge childIndex
        let d := Vec2.sub e.2 e.1
        let edgeLength := ex.sqrtQ (Vec2.dot d d)
        let n := strideSteps acc.2 edgeLength stride
        let st := (List.range n).foldl
          (fun s k =>
            let p := Vec2.add e.1
              (Vec2.smul ((acc.2 + (k : ℚ) * stride) / edgeLength) d)
            s.createParticleForGroup groupDef xf p) acc.1
        (st, acc.2 + (n : ℚ) * stride - edgeLength))
      (st, 0)).1

/-- CreateParticlesFillShapeForGroup: stamp a stride-aligned grid over the
shape's AABB, keeping the points the shape contains. -/
def createParticlesFillShapeForGroup (st : b2ParticleSystem)
    (groupDef : b2ParticleGroupDef) (xf : Transform) : b2ParticleSystem :=
  match groupDef.shape with
  | none => st
  | some shape =>
    let stride := if groupDef.stride = 0 then st.getParticleStride
      else groupDef.stride
    let identity : Transform := ⟨Vec2.zero, ⟨0, 1⟩⟩
    let aabb := shape.computeAABB identity 0
    let y0 := (⌊aabb.lowerBound.y / stride⌋ : ℚ) * stride
    let x0 := (⌊aabb.lowerBound.x / stride⌋ : ℚ) * stride
    (List.range (strideSteps y0 aabb.upperBound.y stride)).foldl
      (fun s ky =>
        let y := y0 + (ky : ℚ) * stride
        (List.range (strideSteps x0 aabb.upperBound.x stride)).foldl
          (fun s2 kx =>
            let x := x0 + (kx : ℚ) * stride
            if shape.testPoint identity ⟨x, y⟩ then
              s2.createParticleForGroup groupDef xf ⟨x, y⟩
            else s2) s) st

/-- UpdatePairsAndTriads: emit spring pairs from the current contacts between
the two groups, and elastic triads from the Voronoi diagram (the oracle) over
the non-zombie particles of the range. -/
def updatePairsAndTriads (ex : Externals) (st : b2ParticleSystem)
    (firstIndex lastIndex : ℤ) (groupA groupB : b2ParticleGroup) :
    b2ParticleSystem :=
  let particleFlags := (intRange firstIndex lastIndex).foldl
    (fun a i => a ||| st.getFlags i) 0
  let st := if particleFlags &&& k_pairFlags ≠ 0 then
      let newPairs := st.contacts.foldl
        (fun acc contact =>
          let a := contact.indexA
          let b := contact.indexB
          let a2 := if a > b then b else a
          let b2 := if a > b then a else b
          if (groupA.containsParticle a2 || groupB.containsParticle b2) &&
              (groupA.containsParticle b2 || groupB.containsParticle a2) then
            let d := Vec2.sub (st.getPos a2) (st.getPos b2)
            acc ++ [{ indexA := a2, indexB := b2, flags := contact.flags
                      strength := min groupA.strength groupB.strength
                      distance := ex.sqrtQ (Vec2.dot d d) : Pair }]
          else acc)
        []
      { st with pairs := st.pairs ++ newPairs }
    else st
  if particleFlags &&& k_triadFlags ≠ 0 then
    let generators := (intRange firstIndex lastIndex).filterMap
      (fun i =>
        if !(isZombieFlags (st.getFlags i)) &&
            (groupA.containsParticle i || groupB.containsParticle i) then
          some (st.getPos i, i)
        else none)
    let nodes := ex.voronoiNodes generators (st.getParticleStride / 2)
    let newTriads := nodes.foldl
      (fun acc node =>
        let a := node.1
        let b := node.2.1
        let c := node.2.2
        if (groupA.containsParticle a || groupA.containsParticle b ||
              groupA.containsParticle c) &&
            (groupB.containsParticle a || groupB.containsParticle b ||
              groupB.containsParticle c) then
          let af := st.getFlags a
          let bf := st.getFlags b
          let cf := st.getFlags c
          if af &&& bf &&& cf &&& k_triadFlags ≠ 0 then
            let pa := st.getPos a
            let pb := st.getPos b
            let pc := st.getPos c
            let dab := Vec2.sub pa pb
            let dbc := Vec2.sub pb pc
            let dca := Vec2.sub pc pa
            let maxDistanceSquared :=
              b2_maxTriadDistanceSquared * st.squaredDiameter
            if Vec2.dot dab dab < maxDistanceSquared ∧
                Vec2.dot dbc dbc < maxDistanceSquared ∧
                Vec2.dot dca dca < maxDistanceSquared then
              let midPoint :=
                Vec2.smul (1 / 3) (Vec2.add (Vec2.add pa pb) pc)
              acc ++ [{ indexA := a, indexB := b, indexC := c
                        flags := af ||| bf ||| cf
                        strength := min groupA.strength groupB.strength
                        pa := Vec2.sub pa midPoint
                        pb := Vec2.sub pb midPoint
                        pc := Vec2.sub pc midPoint
                        ka := -(Vec2.dot dca dab)
                        kb := -(Vec2.dot dab dbc)
                        kc := -(Vec2.dot dbc dca)
                        s := Vec2.cross pa pb + Vec2.cross pb pc +
                          Vec2.cross pc pa : Triad }]
            else acc
          else acc
        else acc)
      []
    { st with triads := st.triads ++ newTriads }
  else st

/-- Replace a group value in groupList through its heap identity. -/
def replaceGroup (st : b2ParticleSystem) (g : b2ParticleGroup) :
    b2ParticleSystem :=
  { st with groupList :=
      st.groupList.map (fun h => if h.id = g.id then g else h) }

/-- CreateParticleGroup: null return when locked; stamp the particles from
the shape and/or the explicit position data, allocate and link the group,
assign it to the new particles, apply the group flags, refresh contacts and
emit the internal pairs/triads. -/
def createParticleGroup (ex : Externals) (st : b2ParticleSystem)
    (groupDef : b2ParticleGroupDef) : Option ℕ × b2ParticleSystem :=
  if st.locked then (none, st) else
  let sc := ex.sinCos groupDef.angle
  let transform : Transform := ⟨groupDef.position, ⟨sc.1, sc.2⟩⟩
  let firstIndex := st.count
  let st := match groupDef.shape with
    | some shape =>
      match shape.shapeType with
      | ShapeType.edge => st.createParticlesStrokeShapeForGroup ex groupDef transform
      | ShapeType.chain => st.createParticlesStrokeShapeForGroup ex groupDef transform
      | ShapeType.polygon => st.createParticlesFillShapeForGroup groupDef transform
      | ShapeType.circle => st.createParticlesFillShapeForGroup groupDef transform
    | none => st
  let st := if groupDef.particleCount ≠ 0 then
      (groupDef.positionData.take groupDef.particleCount).foldl
        (fun s p => s.createParticleForGroup groupDef transform p) st
    else st
  let lastIndex := st.count
  let group : b2ParticleGroup := {
    id := st.nextGroupId
    firstIndex := (firstIndex : ℤ)
    lastIndex := (lastIndex : ℤ)
    groupFlags := 0
    strength := groupDef.strength
    userData := groupDef.userData
    transform := transform }
  let st := { st with
    groupList := group :: st.groupList
    groupCount := st.groupCount + 1
    nextGroupId := st.nextGroupId + 1 }
  let st := { st with
    groupIdxData := (intRange (firstIndex : ℤ) (lastIndex : ℤ)).foldl
      (fun l (i : ℤ) => l.set i.toNat (some group.id)) st.groupIdxData }
  let p := st.setParticleGroupFlagsOn group groupDef.groupFlags
  let st := p.1.replaceGroup p.2
  let st := updateContacts ex.invSqrtQ st true
  let st := st.updatePairsAndTriads ex (firstIndex : ℤ) (lastIndex : ℤ)
    p.2 p.2
  (some group.id, st)

end b2ParticleSystem

/-- The index permutation applied by RotateBuffer. -/
def rotateIndexMap (start mid finish i : ℤ) : ℤ :=
  if i < start then i
  else if i < mid then i + finish - mid
  else if i < finish then i + start - mid
  else i

/-- std::rotate on the subrange [start, finish), bringing mid to start. -/
def rotateSub (start mid finish : ℕ) (l : List α) : List α :=
  l.take start ++ ((l.drop mid).take (finish - mid)) ++
    ((l.drop start).take (mid - start)) ++ l.drop finish

namespace b2ParticleSystem

/-- RotateBuffer: rotate every per-particle buffer on [start, end) so that
[mid, end) precedes [start, mid), and rewrite every index-bearing structure
and every group range through the induced permutation. -/
def rotateBuffer (st : b2ParticleSystem) (start mid finish : ℤ) :
    b2ParticleSystem :=
  if start = mid ∨ mid = finish then st else
  let s := start.toNat
  let m := mid.toNat
  let e := finish.toNat
  let st := { st with
    flagsData := rotateSub s m e st.flagsData
    positionData := rotateSub s m e st.positionData
    velocityData := rotateSub s m e st.velocityData
    groupIdxData := rotateSub s m e st.groupIdxData
    staticPressureData := st.staticPressureData.map (rotateSub s m e)
    depthData := st.depthData.map (rotateSub s m e)
    colorData := st.colorData.map (rotateSub s m e)
    userDataData := st.userDataData.map (rotateSub s m e) }
  { st with
    proxies := st.proxies.map (fun (pr : Proxy) =>
      { pr with index := rotateIndexMap start mid finish pr.index })
    contacts := st.contacts.map (fun (ct : b2ParticleContact) =>
      { ct with
        indexA := rotateIndexMap start mid finish ct.indexA
        indexB := rotateIndexMap start mid finish ct.indexB })
    bodyContacts := st.bodyContacts.map (fun (ct : b2ParticleBodyContact) =>
      { ct with index := rotateIndexMap start mid finish ct.index })
    pairs := st.pairs.map (fun (pr : Pair) =>
      { pr with
        indexA := rotateIndexMap start mid finish pr.indexA
        indexB := rotateIndexMap start mid finish pr.indexB })
    triads := st.triads.map (fun (tr : Triad) =>
      { tr with
        indexA := rotateIndexMap start mid finish tr.indexA
        indexB := rotateIndexMap start mid finish tr.indexB
        indexC := rotateIndexMap start mid finish tr.indexC })
    groupList := st.groupList.map (fun (g : b2ParticleGroup) =>
      { g with
        firstIndex := rotateIndexMap start mid finish g.firstIndex
        lastIndex := rotateIndexMap start mid finish (g.lastIndex - 1) + 1 }) }

/-- JoinParticleGroups: no-op when locked; otherwise rotate B's range to the
arena end, rotate A's range against it, refresh contacts, emit pairs/triads
across the union, hand B's particles to A, merge the group flags, extend A's
range and destroy B.  The groups are addressed by heap identity; a stale
identity (destroyed group) is undefined behavior in the source and a no-op
here. -/
def joinParticleGroups (ex : Externals) (st : b2ParticleSystem)
    (idA idB : ℕ) : b2ParticleSystem :=
  if st.locked then st else
  match st.groupList.find? (fun g => g.id == idA),
      st.groupList.find? (fun g => g.id == idB) with
  | some groupA0, some groupB0 =>
    let st := st.rotateBuffer groupB0.firstIndex groupB0.lastIndex
      (st.count : ℤ)
    let groupA := (st.groupList.find? (fun g => g.id == idA)).getD groupA0
    let groupB := (st.groupList.find? (fun g => g.id == idB)).getD groupB0
    let st := st.rotateBuffer groupA.firstIndex groupA.lastIndex
      groupB.firstIndex
    let groupA := (st.groupList.find? (fun g => g.id == idA)).getD groupA
    let groupB := (st.groupList.find? (fun g => g.id == idB)).getD groupB
    let st := updateContacts ex.invSqrtQ st true
    let st := st.updatePairsAndTriads ex groupA.firstIndex groupB.lastIndex
      groupA groupB
    let st := { st with
      groupIdxData := (intRange groupB.firstIndex groupB.lastIndex).foldl
        (fun l (i : ℤ) => l.set i.toNat (some groupA.id)) st.groupIdxData }
    let p := st.setParticleGroupFlagsOn groupA
      (groupA.groupFlags ||| groupB.groupFlags)
    let st := p.1.replaceGroup p.2
    let groupA := { p.2 with lastIndex := groupB.lastIndex }
    let st := st.replaceGroup groupA
    let groupB := { groupB with firstIndex := groupB.lastIndex }
    let st := st.replaceGroup groupB
    st.destroyParticleGroup groupB
  | _, _ => st

end b2ParticleSystem

/-- A particle system in its initial configuration (the constructor state
with radius 1/2, so diameter 1). -/
def emptySystem : b2ParticleSystem := {
  locked := false
  allParticleFlags := 0
  needsUpdateAllParticleFlags := false
  allGroupFlags := 0
  needsUpdateAllGroupFlags := false
  strictContactCheck := false
  density := 1
  inverseDensity := 1
  gravityScale := 1
  particleDiameter := 1
  inverseDiameter := 1
  squaredDiameter := 1
  count := 0
  internalAllocatedCapacity := 0
  maxCount := 0
  flagsData := []
  flagsUserCap := 0
  positionData := []
  positionUserCap := 0
  velocityData := []
  velocityUserCap := 0
  weightData := []
  staticPressureData := none
  accumulationData := []
  accumulation2Data := none
  depthData := none
  colorData := none
  colorUserCap := 0
  userDataData := none
  userDataUserCap := 0
  groupIdxData := []
  proxies := []
  contacts := []
  bodyContacts := []
  pairs := []
  triads := []
  groupCount := 0
  groupList := []
  nextGroupId := 0 }

/-- A two-particle state whose second particle is flagged zombie, used as
the SolveZombie witness input. -/
def zombieWitnessState : b2ParticleSystem := { emptySystem with
  count := 2
  internalAllocatedCapacity := 4
  flagsData := [0, b2_zombieParticle]
  positionData := [⟨1, 2⟩, ⟨3, 4⟩]
  velocityData := [⟨5, 6⟩, ⟨7, 8⟩]
  weightData := [0, 0]
  accumulationData := [0, 0]
  groupIdxData := [none, none] }

/-- Trivial external collaborators, used to instantiate witnesses. -/
def trivialExternals : Externals := {
  sqrtQ := fun _ => 0
  invSqrtQ := fun _ => 0
  sinCos := fun _ => (0, 1)
  queryAABBParticles := fun _ => []
  voronoiNodes := fun _ _ => []
  testPoint := fun _ _ => true }

/-- A trivial shape model, used to instantiate witnesses. -/
def trivialShape : ShapeModel := {
  shapeType := ShapeType.circle
  childCount := 1
  childEdge := fun _ => (Vec2.zero, Vec2.zero)
  computeAABB := fun _ _ => ⟨Vec2.zero, Vec2.zero⟩
  testPoint := fun _ _ => false }

/-- A one-particle state with velocity (3,4), used as the C7 witness. -/
def limitVelocityWitnessState : b2ParticleSystem := { emptySystem with
  count := 1
  internalAllocatedCapacity := 4
  flagsData := [0, 0, 0, 0]
  positionData := [Vec2.zero, Vec2.zero, Vec2.zero, Vec2.zero]
  velocityData := [⟨3, 4⟩, Vec2.zero, Vec2.zero, Vec2.zero]
  weightData := [0, 0, 0, 0]
  groupIdxData := [none, none, none, none] }

/-- A full state (count equal to capacity, capped by maxCount), used as the
C4 witness. -/
def fullSystem : b2ParticleSystem := { emptySystem with
  count := 2
  internalAllocatedCapacity := 2
  maxCount := 2
  flagsData := [0, 0]
  positionData := [Vec2.zero, Vec2.zero]
  velocityData := [Vec2.zero, Vec2.zero]
  weightData := [0, 0]
  groupIdxData := [none, none] }

/-- A locked-world state, used as the C5 witness. -/
def lockedSystem : b2ParticleSystem := { emptySystem with locked := true }

/-- A default particle definition. -/
def defaultParticleDef : b2ParticleDef := {
  flags := 0
  position := Vec2.zero
  velocity := Vec2.zero
  color := 0
  userData := 0 }

/-- A default group definition. -/
def defaultGroupDef : b2ParticleGroupDef := {
  flags := 0
  groupFlags := 0
  position := Vec2.zero
  angle := 0
  linearVelocity := Vec2.zero
  angularVelocity := 0
  color := 0
  strength := 1
  shape := some trivialShape
  stride := 0
  particleCount := 0
  positionData := []
  userData := 0 }

/-- A default group value. -/
def defaultGroup : b2ParticleGroup := {
  id := 0
  firstIndex := 0
  lastIndex := 0
  groupFlags := 0
  strength := 1
  userData := 0
  transform := ⟨Vec2.zero, ⟨0, 1⟩⟩ }

/-- A body contact of particle 0 against fixture 0 with the given weight. -/
def mkBodyContact0 (w : ℚ) : b2ParticleBodyContact :=
  { index := 0, bodyId := 0, fixtureId := 0, weight := w, normal := ⟨0, 1⟩,
    mass := 1 }

/-- One particle carrying five body contacts, already ordered by weight
decreasing; input for the spurious-contact-filter count check. -/
def spuriousFilterState : b2ParticleSystem := { emptySystem with
  count := 1
  internalAllocatedCapacity := 1
  strictContactCheck := true
  flagsData := [0]
  positionData := [Vec2.zero]
  velocityData := [Vec2.zero]
  weightData := [0]
  groupIdxData := [none]
  bodyContacts := [mkBodyContact0 5, mkBodyContact0 4, mkBodyContact0 3,
    mkBodyContact0 2, mkBodyContact0 1] }

/-- Two particles one half-diameter apart, the right-hand one carrying the
lower particle index; input for the broad-phase theorems.  The diameter is 2
(radius 1), so the squared diameter is 4 and the inverse diameter 1/2. -/
def contactPairState : b2ParticleSystem := { emptySystem with
  count := 2
  internalAllocatedCapacity := 2
  particleDiameter := 2
  inverseDiameter := 1 / 2
  squaredDiameter := 4
  flagsData := [0, 0]
  positionData := [⟨1, 0⟩, ⟨0, 0⟩]
  velocityData := [Vec2.zero, Vec2.zero]
  weightData := [0, 0]
  groupIdxData := [none, none]
  proxies := [⟨0, 0⟩, ⟨0, 1⟩] }

section Theorems

open b2ParticleSystem

/-- Auxiliary: a foldl that conditionally accumulates squares equals the sum
of the mapped terms. -/
theorem foldl_add_map (g : α → ℚ) (l : List α) (a : ℚ) :
    l.foldl (fun acc x => acc + g x) a = a + (l.map g).sum := by
  induction l generalizing a with
  | nil => simp
  | cons x xs ih => simp [ih, add_assoc]

/-- C9: GetParticleInvMass multiplies the hard-coded constant 1.777777 by the
stored reciprocals of density and diameter; against
GetParticleMass = density * stride * stride with stride = 0.75 * diameter the
product is 15999993/16000000, not 1. -/
theorem getParticleInvMass_hardcoded (st : b2ParticleSystem)
    (hd : st.density ≠ 0) (hdiam : st.particleDiameter ≠ 0)
    (hiv : st.inverseDensity = 1 / st.density)
    (hid : st.inverseDiameter = 1 / st.particleDiameter) :
    st.getParticleInvMass * st.getParticleMass = 15999993 / 16000000 ∧
    st.getParticleInvMass * st.getParticleMass ≠ 1 := by
  have h : st.getParticleInvMass * st.getParticleMass = 15999993 / 16000000 := by
    unfold b2ParticleSystem.getParticleInvMass b2ParticleSystem.getParticleMass
      b2ParticleSystem.getParticleStride b2_particleStride
    rw [hiv, hid]
    field_simp
    ring
  refine ⟨h, ?_⟩
  rw [h]
  norm_num

/-- C9 witness: the product at the initial configuration. -/
theorem getParticleInvMass_hardcoded_witness :
    emptySystem.getParticleInvMass * emptySystem.getParticleMass =
      15999993 / 16000000 ∧
    emptySystem.getParticleInvMass * emptySystem.getParticleMass ≠ 1 :=
  getParticleInvMass_hardcoded emptySystem (by norm_num [emptySystem])
    (by norm_num [emptySystem]) (by norm_num [emptySystem])
    (by norm_num [emptySystem])

/-- C10: ComputeParticleCollisionEnergy is half the particle mass times the
sum of vn^2 over exactly the contacts whose relative normal velocity vn is
negative; it is nonnegative (for a nonnegative density) and zero when no
contact is approaching. -/
theorem computeParticleCollisionEnergy_spec (st : b2ParticleSystem)
    (hdens : 0 ≤ st.density) :
    st.computeParticleCollisionEnergy =
      (1 / 2) * st.getParticleMass *
        (st.contacts.map (fun ct =>
          let vn := Vec2.dot
            (Vec2.sub (st.getVel ct.indexB) (st.getVel ct.indexA)) ct.normal
          if vn < 0 then vn * vn else 0)).sum ∧
    0 ≤ st.computeParticleCollisionEnergy ∧
    ((∀ ct ∈ st.contacts, 0 ≤ Vec2.dot
        (Vec2.sub (st.getVel ct.indexB) (st.getVel ct.indexA)) ct.normal) →
      st.computeParticleCollisionEnergy = 0) := by
  have hsum : st.computeParticleCollisionEnergy =
      (1 / 2) * st.getParticleMass *
        (st.contacts.map (fun ct =>
          let vn := Vec2.dot
            (Vec2.sub (st.getVel ct.indexB) (st.getVel ct.indexA)) ct.normal
          if vn < 0 then vn * vn else 0)).sum := by
    unfold b2ParticleSystem.computeParticleCollisionEnergy
    rw [show (st.contacts.foldl (fun acc contact =>
        let a := contact.indexA
        let b := contact.indexB
        let n := contact.normal
        let v := Vec2.sub (st.getVel b) (st.getVel a)
        let vn := Vec2.dot v n
        if vn < 0 then acc + vn * vn else acc) 0) =
      st.contacts.foldl (fun acc contact =>
        acc + (if Vec2.dot (Vec2.sub (st.getVel contact.indexB)
            (st.getVel contact.indexA)) contact.normal < 0 then
          Vec2.dot (Vec2.sub (st.getVel contact.indexB)
            (st.getVel contact.indexA)) contact.normal *
          Vec2.dot (Vec2.sub (st.getVel contact.indexB)
            (st.getVel contact.indexA)) contact.normal else 0)) 0 from by
      congr 1
      funext acc contact
      by_cases h : Vec2.dot (Vec2.sub (st.getVel contact.indexB)
          (st.getVel contact.indexA)) contact.normal < 0 <;> simp [h]]
    rw [foldl_add_map]
    simp
  have hmass : 0 ≤ st.getParticleMass := by
    unfold b2ParticleSystem.getParticleMass b2ParticleSystem.getParticleStride
    have : 0 ≤ (b2_particleStride * st.particleDiameter) *
        (b2_particleStride * st.particleDiameter) := mul_self_nonneg _
    calc (0 : ℚ) ≤ st.density * ((b2_particleStride * st.particleDiameter) *
          (b2_particleStride * st.particleDiameter)) := mul_nonneg hdens this
      _ = st.density * (b2_particleStride * st.particleDiameter) *
          (b2_particleStride * st.particleDiameter) := by ring
  have hterm : ∀ ct : b2ParticleContact, 0 ≤
      (fun ct : b2ParticleContact =>
        let vn := Vec2.dot
          (Vec2.sub (st.getVel ct.indexB) (st.getVel ct.indexA)) ct.normal
        if vn < 0 then vn * vn else 0) ct := by
    intro ct
    simp only []
    split
    · exact mul_self_nonneg _
    · exact le_refl 0
  refine ⟨hsum, ?_, ?_⟩
  · rw [hsum]
    have : 0 ≤ (st.contacts.map (fun ct =>
        let vn := Vec2.dot
          (Vec2.sub (st.getVel ct.indexB) (st.getVel ct.indexA)) ct.normal
        if vn < 0 then vn * vn else 0)).sum := by
      apply List.sum_nonneg
      intro q hq
      obtain ⟨ct, _, rfl⟩ := List.mem_map.mp hq
      exact hterm ct
    have h2 : 0 ≤ (1 / 2 : ℚ) * st.getParticleMass :=
      mul_nonneg (by norm_num) hmass
    exact mul_nonneg h2 this
  · intro hall
    rw [hsum]
    have : (st.contacts.map (fun ct =>
        let vn := Vec2.dot
          (Vec2.sub (st.getVel ct.indexB) (st.getVel ct.indexA)) ct.normal
        if vn < 0 then vn * vn else 0)).sum = 0 := by
      apply List.sum_eq_zero
      intro q hq
      obtain ⟨ct, hct, rfl⟩ := List.mem_map.mp hq
      have hge := hall ct hct
      by_cases h : Vec2.dot (Vec2.sub (st.getVel ct.indexB)
          (st.getVel ct.indexA)) ct.normal < 0
      · exact absurd h (not_lt.mpr hge)
      · simp [h]
    rw [this, mul_zero]

/-- Auxiliary: reading mapFirstN below both the write bound and the buffer
length gives the mapped entry. -/
theorem mapFirstN_getD (f : α → α) (l : List α) (d : α) :
    ∀ n i, i < n → i < l.length →
    (mapFirstN n f l).getD i d = f (l.getD i d) := by
  induction l with
  | nil => intro n i _ h2; simp at h2
  | cons x xs ih =>
    intro n i h1 h2
    cases n with
    | zero => omega
    | succ n =>
      cases i with
      | zero => simp [mapFirstN]
      | succ i =>
        have h := ih n i (by omega) (by simpa using h2)
        simpa [mapFirstN] using h

/-- Auxiliary: the squared length of a scaled vector. -/
theorem dot_smul_smul (s : ℚ) (v : Vec2) :
    Vec2.dot (Vec2.smul s v) (Vec2.smul s v) = s * s * Vec2.dot v v := by
  unfold Vec2.dot Vec2.smul
  ring

/-- C7: LimitVelocity leaves a velocity with squared magnitude at most the
critical squared velocity unchanged, and rescales a faster one to magnitude
criticalV = diameter * inv_dt (same direction), provided the float
square-root kernel is exact and positive at the one point where it is
evaluated. -/
theorem limitVelocity_spec (sqrtQ : ℚ → ℚ) (st : b2ParticleSystem)
    (step : b2TimeStep) (i : ℕ) (hi : i < st.count)
    (hlen : i < st.velocityData.length)
    (hcrit : 0 < st.getCriticalVelocitySquared step) :
    (Vec2.dot (st.getVel i) (st.getVel i) ≤
        st.getCriticalVelocitySquared step →
      (st.limitVelocity sqrtQ step).getVel i = st.getVel i) ∧
    (Vec2.dot (st.getVel i) (st.getVel i) >
        st.getCriticalVelocitySquared step →
      0 < sqrtQ (st.getCriticalVelocitySquared step /
        Vec2.dot (st.getVel i) (st.getVel i)) →
      sqrtQ (st.getCriticalVelocitySquared step /
          Vec2.dot (st.getVel i) (st.getVel i)) *
        sqrtQ (st.getCriticalVelocitySquared step /
          Vec2.dot (st.getVel i) (st.getVel i)) =
        st.getCriticalVelocitySquared step /
          Vec2.dot (st.getVel i) (st.getVel i) →
      Vec2.dot ((st.limitVelocity sqrtQ step).getVel i)
          ((st.limitVelocity sqrtQ step).getVel i) =
        st.getCriticalVelocitySquared step ∧
      ∃ c : ℚ, 0 < c ∧
        (st.limitVelocity sqrtQ step).getVel i =
          Vec2.smul c (st.getVel i)) := by
  have htn : ((i : ℤ)).toNat = i := Int.toNat_ofNat i
  have hout : (st.limitVelocity sqrtQ step).getVel i =
      (if Vec2.dot (st.getVel i) (st.getVel i) >
          st.getCriticalVelocitySquared step then
        Vec2.smul (sqrtQ (st.getCriticalVelocitySquared step /
          Vec2.dot (st.getVel i) (st.getVel i))) (st.getVel i)
      else st.getVel i) := by
    unfold b2ParticleSystem.limitVelocity b2ParticleSystem.getVel
    simp only [htn]
    exact mapFirstN_getD _ st.velocityData Vec2.zero st.count i hi hlen
  constructor
  · intro hle
    rw [hout, if_neg (not_lt.mpr hle)]
  · intro hgt hpos hexact
    have hvpos : 0 < Vec2.dot (st.getVel i) (st.getVel i) :=
      lt_trans hcrit hgt
    rw [hout, if_pos hgt]
    constructor
    · rw [dot_smul_smul, hexact]
      exact div_mul_cancel₀ _ (ne_of_gt hvpos)
    · exact ⟨_, hpos, rfl⟩

/-- C7 witness: a particle with velocity (3,4) in a system with diameter 1 at
inv_dt 1 is clamped to unit speed along the same direction. -/
theorem limitVelocity_spec_witness :
    Vec2.dot
        ((limitVelocityWitnessState.limitVelocity
            (fun _ => 1 / 5) ⟨1, 1⟩).getVel (0 : ℕ))
        ((limitVelocityWitnessState.limitVelocity
            (fun _ => 1 / 5) ⟨1, 1⟩).getVel (0 : ℕ)) =
      limitVelocityWitnessState.getCriticalVelocitySquared ⟨1, 1⟩ ∧
    ∃ c : ℚ, 0 < c ∧
      (limitVelocityWitnessState.limitVelocity
          (fun _ => 1 / 5) ⟨1, 1⟩).getVel (0 : ℕ) =
        Vec2.smul c (limitVelocityWitnessState.getVel (0 : ℕ)) :=
  (limitVelocity_spec (fun _ => 1 / 5) limitVelocityWitnessState ⟨1, 1⟩ 0
      (by norm_num [limitVelocityWitnessState, emptySystem])
      (by norm_num [limitVelocityWitnessState, emptySystem])
      (by norm_num [limitVelocityWitnessState, emptySystem,
        b2ParticleSystem.getCriticalVelocitySquared,
        b2ParticleSystem.getCriticalVelocity])).2
    (by norm_num [limitVelocityWitnessState, emptySystem,
      b2ParticleSystem.getCriticalVelocitySquared,
      b2ParticleSystem.getCriticalVelocity, b2ParticleSystem.getVel,
      Vec2.dot, Vec2.zero])
    (by norm_num)
    (by norm_num [limitVelocityWitnessState, emptySystem,
      b2ParticleSystem.getCriticalVelocitySquared,
      b2ParticleSystem.getCriticalVelocity, b2ParticleSystem.getVel,
      Vec2.dot, Vec2.zero])

/-- Auxiliary: reallocation never shrinks the internal capacity. -/
theorem realloc_cap_ge (st : b2ParticleSystem) (c : ℕ) :
    st.internalAllocatedCapacity ≤
      (st.reallocateInternalAllocatedBuffers c).internalAllocatedCapacity := by
  unfold b2ParticleSystem.reallocateInternalAllocatedBuffers
  split
  · next h => exact le_of_lt h
  · exact le_refl _

/-- Auxiliary: reallocation is the identity when the clamped capacity does
not exceed the current one. -/
theorem realloc_noop (st : b2ParticleSystem) (c : ℕ)
    (h : st.clampCapacity c ≤ st.internalAllocatedCapacity) :
    st.reallocateInternalAllocatedBuffers c = st := by
  unfold b2ParticleSystem.reallocateInternalAllocatedBuffers
  rw [if_neg (not_lt.mpr h)]

/-- C4: when the capacity-doubling attempt (clamped by user-supplied buffer
capacities and maxCount) leaves the particle count at the allocated capacity,
CreateParticle returns b2_invalidParticleIndex and the state is exactly
unchanged. -/
theorem createParticle_capacityExhausted (st : b2ParticleSystem)
    (pdef : b2ParticleDef) (hlock : st.locked = false)
    (hinv : st.count ≤ st.internalAllocatedCapacity)
    (hfull : (st.reallocateInternalAllocatedBuffers
        (if st.count ≠ 0 then 2 * st.count
         else b2_minParticleBufferCapacity)).internalAllocatedCapacity ≤
      st.count) :
    st.createParticle pdef = (b2_invalidParticleIndex, st) := by
  have hge := realloc_cap_ge st
    (if st.count ≠ 0 then 2 * st.count else b2_minParticleBufferCapacity)
  have heq : st.count = st.internalAllocatedCapacity :=
    le_antisymm hinv (le_trans hge hfull)
  have hclamp : st.clampCapacity
      (if st.count ≠ 0 then 2 * st.count
       else b2_minParticleBufferCapacity) ≤
      st.internalAllocatedCapacity := by
    by_contra hlt
    push_neg at hlt
    have hcap : (st.reallocateInternalAllocatedBuffers
        (if st.count ≠ 0 then 2 * st.count
         else b2_minParticleBufferCapacity)).internalAllocatedCapacity =
        st.clampCapacity (if st.count ≠ 0 then 2 * st.count
          else b2_minParticleBufferCapacity) := by
      unfold b2ParticleSystem.reallocateInternalAllocatedBuffers
      rw [if_pos hlt]
    omega
  have hnoop := realloc_noop st _ hclamp
  have hc1 : (st.count ≥ st.internalAllocatedCapacity) = True := eq_true heq.ge
  simp only [b2ParticleSystem.createParticle, hlock, Bool.false_eq_true,
    if_false, hnoop, hc1, if_true]

/-- C4 witness: a system whose two-particle capacity is capped by
maxCount = 2 rejects a third particle and is unchanged. -/
theorem createParticle_capacityExhausted_witness :
    fullSystem.createParticle defaultParticleDef =
      (b2_invalidParticleIndex, fullSystem) :=
  createParticle_capacityExhausted fullSystem defaultParticleDef rfl
    (by decide) (by decide)

/-- C5: every mutating entry point called while the host world is locked
returns zero (or returns nothing) and leaves the particle system unchanged. -/
theorem worldLocked_mutators_noop (ex : Externals) (st : b2ParticleSystem)
    (pdef : b2ParticleDef) (shape : ShapeModel) (xf : Transform) (cb : Bool)
    (qap : AABB → List ℤ) (g : b2ParticleGroup) (gdef : b2ParticleGroupDef)
    (idA idB : ℕ) (hlock : st.locked = true) :
    st.createParticle pdef = (0, st) ∧
    st.destroyParticlesInShape shape xf cb qap = (0, st) ∧
    st.destroyParticlesInGroup g cb = st ∧
    st.createParticleGroup ex gdef = (none, st) ∧
    st.joinParticleGroups ex idA idB = st := by
  refine ⟨?_, ?_, ?_, ?_, ?_⟩ <;>
    simp [b2ParticleSystem.createParticle,
      b2ParticleSystem.destroyParticlesInShape,
      b2ParticleSystem.destroyParticlesInGroup,
      b2ParticleSystem.createParticleGroup,
      b2ParticleSystem.joinParticleGroups, hlock]

/-- C5 witness: the five mutators at a concrete locked system. -/
theorem worldLocked_mutators_noop_witness :
    lockedSystem.locked = true ∧
    lockedSystem.createParticle defaultParticleDef = (0, lockedSystem) ∧
    lockedSystem.destroyParticlesInShape trivialShape
      ⟨Vec2.zero, ⟨0, 1⟩⟩ false (fun _ => []) = (0, lockedSystem) ∧
    lockedSystem.destroyParticlesInGroup defaultGroup false = lockedSystem ∧
    lockedSystem.createParticleGroup trivialExternals defaultGroupDef =
      (none, lockedSystem) ∧
    lockedSystem.joinParticleGroups trivialExternals 0 1 = lockedSystem :=
  ⟨rfl, worldLocked_mutators_noop trivialExternals lockedSystem
    defaultParticleDef trivialShape ⟨Vec2.zero, ⟨0, 1⟩⟩ false (fun _ => [])
    defaultGroup defaultGroupDef 0 1 rfl⟩

/-- C10 witness: at the initial configuration (no contacts, density 1). -/
theorem computeParticleCollisionEnergy_spec_witness :
    0 ≤ emptySystem.density ∧
    0 ≤ emptySystem.computeParticleCollisionEnergy :=
  ⟨by norm_num [emptySystem],
    (computeParticleCollisionEnergy_spec emptySystem
      (by norm_num [emptySystem])).2.1⟩

/-- C6: evaluating the strict spurious-contact filter on one particle with
five body contacts, sorted nearest first and all passing the fixture point
test, keeps FOUR contacts: the post-incremented counter check
(m_currentContacts++ > k_maxContactsPerPoint with k = 3) admits counter
values 0..3, one more than the documented maximum of 3 per particle. -/
theorem removeSpuriousBodyContacts_keeps_four :
    ((spuriousFilterState.removeSpuriousBodyContacts
        (fun _ _ => true)).bodyContacts).length = 4 := by
  decide

/-- Auxiliary: nested vector scaling multiplies the scalars. -/
theorem smul_smul_vec (a b : ℚ) (v : Vec2) :
    Vec2.smul a (Vec2.smul b v) = Vec2.smul (a * b) v := by
  unfold Vec2.smul
  simp only [Vec2.mk.injEq]
  constructor <;> ring

/-- Auxiliary: scaling by one is the identity. -/
theorem one_smul_vec (v : Vec2) : Vec2.smul 1 v = v := by
  unfold Vec2.smul
  simp

/-- Auxiliary: the dot square is nonnegative. -/
theorem dot_self_nonneg (v : Vec2) : 0 ≤ Vec2.dot v v := by
  unfold Vec2.dot
  have h1 := mul_self_nonneg v.x
  have h2 := mul_self_nonneg v.y
  linarith

/-- Auxiliary: the contact array produced by UpdateContacts, as the
broad-phase candidate list filtered through AddContact and the zombie
compaction. -/
theorem updateContacts_contacts (invSqrtQ : ℚ → ℚ) (st : b2ParticleSystem)
    (ez : Bool) :
    (updateContacts invSqrtQ st ez).contacts =
      ((broadPhasePairs (sortProxies st.updateProxyTags)).filterMap
        (fun ab => st.addContactOpt invSqrtQ ab.1 ab.2)).filter
          (fun ct => !(ez && contactIsZombie ct)) := by
  have key : ∀ (l : List (ℤ × ℤ)) (acc : List b2ParticleContact),
      l.foldl (fun acc ab => match st.addContactOpt invSqrtQ ab.1 ab.2 with
        | some contact => acc ++ [contact]
        | none => acc) acc =
      acc ++ l.filterMap (fun ab => st.addContactOpt invSqrtQ ab.1 ab.2) := by
    intro l
    induction l with
    | nil => intro acc; simp
    | cons x xs ih =>
      intro acc
      cases hf : st.addContactOpt invSqrtQ x.1 x.2 <;> simp [hf, ih]
  simp only [b2ParticleSystem.updateContacts]
  cases ez with
  | false =>
    simp only [Bool.false_eq_true, if_false, Bool.false_and,
      Bool.not_false, List.filter_true]
    rw [key]
    simp
  | true =>
    simp only [if_pos rfl, Bool.true_and]
    rw [key]
    simp

/-- C2: the contact array after UpdateContacts is exactly the broad-phase
candidate list filtered through AddContact (appended iff the squared distance
is below the squared diameter), with zombie-flagged contacts compacted out
when exceptZombie holds; an appended contact carries the union of the two
flag words, weight 1 - dist/diameter and the unit normal from a to b,
whenever the inverse square-root kernel is exact at the squared distance. -/
theorem updateContacts_spec (invSqrtQ : ℚ → ℚ) (st : b2ParticleSystem)
    (hsqd : st.squaredDiameter = st.particleDiameter * st.particleDiameter)
    (hinvd : st.inverseDiameter = 1 / st.particleDiameter) :
    (∀ ez : Bool, (updateContacts invSqrtQ st ez).contacts =
      ((broadPhasePairs (sortProxies st.updateProxyTags)).filterMap
        (fun ab => st.addContactOpt invSqrtQ ab.1 ab.2)).filter
          (fun ct => !(ez && contactIsZombie ct))) ∧
    (∀ a b : ℤ, (st.addContactOpt invSqrtQ a b).isSome = true ↔
      Vec2.dot (Vec2.sub (st.getPos b) (st.getPos a))
          (Vec2.sub (st.getPos b) (st.getPos a)) <
        st.particleDiameter * st.particleDiameter) ∧
    (∀ (a b : ℤ) (ct : b2ParticleContact),
      st.addContactOpt invSqrtQ a b = some ct →
      ct.indexA = a ∧ ct.indexB = b ∧
      ct.flags = (st.getFlags a ||| st.getFlags b) ∧
      (∀ s : ℚ, s = invSqrtQ (Vec2.dot
          (Vec2.sub (st.getPos b) (st.getPos a))
          (Vec2.sub (st.getPos b) (st.getPos a))) → 0 ≤ s →
        s * s * Vec2.dot (Vec2.sub (st.getPos b) (st.getPos a))
          (Vec2.sub (st.getPos b) (st.getPos a)) = 1 →
        ct.weight = 1 - (Vec2.dot (Vec2.sub (st.getPos b) (st.getPos a))
            (Vec2.sub (st.getPos b) (st.getPos a)) * s) /
          st.particleDiameter ∧
        (Vec2.dot (Vec2.sub (st.getPos b) (st.getPos a))
            (Vec2.sub (st.getPos b) (st.getPos a)) * s) *
          (Vec2.dot (Vec2.sub (st.getPos b) (st.getPos a))
            (Vec2.sub (st.getPos b) (st.getPos a)) * s) =
          Vec2.dot (Vec2.sub (st.getPos b) (st.getPos a))
            (Vec2.sub (st.getPos b) (st.getPos a)) ∧
        0 ≤ Vec2.dot (Vec2.sub (st.getPos b) (st.getPos a))
            (Vec2.sub (st.getPos b) (st.getPos a)) * s ∧
        Vec2.dot ct.normal ct.normal = 1 ∧
        Vec2.smul (Vec2.dot (Vec2.sub (st.getPos b) (st.getPos a))
            (Vec2.sub (st.getPos b) (st.getPos a)) * s) ct.normal =
          Vec2.sub (st.getPos b) (st.getPos a))) := by
  refine ⟨fun ez => updateContacts_contacts invSqrtQ st ez, ?_, ?_⟩
  · intro a b
    simp only [b2ParticleSystem.addContactOpt]
    rw [hsqd]
    by_cases hlt : Vec2.dot (Vec2.sub (st.getPos b) (st.getPos a))
        (Vec2.sub (st.getPos b) (st.getPos a)) <
        st.particleDiameter * st.particleDiameter
    · rw [if_pos hlt]
      simpa using hlt
    · rw [if_neg hlt]
      simpa using hlt
  · intro a b ct hct
    simp only [b2ParticleSystem.addContactOpt] at hct
    by_cases hlt : Vec2.dot (Vec2.sub (st.getPos b) (st.getPos a))
        (Vec2.sub (st.getPos b) (st.getPos a)) < st.squaredDiameter
    case neg => rw [if_neg hlt] at hct; exact absurd hct (by simp)
    case pos =>
    rw [if_pos hlt] at hct
    have hrec := Option.some.inj hct
    subst hrec
    refine ⟨rfl, rfl, rfl, ?_⟩
    intro s hs hs0 hss
    have hd0 : 0 ≤ Vec2.dot (Vec2.sub (st.getPos b) (st.getPos a))
        (Vec2.sub (st.getPos b) (st.getPos a)) := dot_self_nonneg _
    refine ⟨?_, ?_, ?_, ?_, ?_⟩
    · dsimp only
      rw [← hs, hinvd]
      ring
    · calc (Vec2.dot (Vec2.sub (st.getPos b) (st.getPos a))
            (Vec2.sub (st.getPos b) (st.getPos a)) * s) *
          (Vec2.dot (Vec2.sub (st.getPos b) (st.getPos a))
            (Vec2.sub (st.getPos b) (st.getPos a)) * s) =
          Vec2.dot (Vec2.sub (st.getPos b) (st.getPos a))
            (Vec2.sub (st.getPos b) (st.getPos a)) *
          (s * s * Vec2.dot (Vec2.sub (st.getPos b) (st.getPos a))
            (Vec2.sub (st.getPos b) (st.getPos a))) := by ring
        _ = Vec2.dot (Vec2.sub (st.getPos b) (st.getPos a))
            (Vec2.sub (st.getPos b) (st.getPos a)) := by rw [hss, mul_one]
    · exact mul_nonneg hd0 hs0
    · dsimp only
      rw [← hs, dot_smul_smul]
      exact hss
    · dsimp only
      rw [← hs, smul_smul_vec]
      have harg : Vec2.dot (Vec2.sub (st.getPos b) (st.getPos a))
          (Vec2.sub (st.getPos b) (st.getPos a)) * s * s = 1 := by
        rw [← hss]
        ring
      rw [harg, one_smul_vec]

/-- C2 witness: the append condition at the two-particle state, with the
exact inverse square root of the squared distance 1 being 1. -/
theorem updateContacts_spec_witness :
    ((contactPairState.addContactOpt (fun _ => 1) 0 1).isSome = true ↔
      Vec2.dot (Vec2.sub (contactPairState.getPos 1)
          (contactPairState.getPos 0))
        (Vec2.sub (contactPairState.getPos 1) (contactPairState.getPos 0)) <
      contactPairState.particleDiameter * contactPairState.particleDiameter) :=
  (updateContacts_spec (fun _ => 1) contactPairState
    (by norm_num [contactPairState, emptySystem])
    (by norm_num [contactPairState, emptySystem])).2.1 0 1

/-- Auxiliary: the element at which takeWhile stopped fails the predicate. -/
theorem takeWhile_stop (p : α → Bool) :
    ∀ (l : List α) (h : (l.takeWhile p).length < l.length),
      p (l.get ⟨(l.takeWhile p).length, h⟩) = false := by
  intro l
  induction l with
  | nil => intro h; simp at h
  | cons x xs ih =>
    intro h
    by_cases hp : p x
    · have hcons : (x :: xs).takeWhile p = x :: xs.takeWhile p := by
        simp [List.takeWhile_cons, hp]
      have hlen : ((x :: xs).takeWhile p).length =
          (xs.takeWhile p).length + 1 := by rw [hcons]; rfl
      have hlt : (xs.takeWhile p).length < xs.length := by
        have := h
        rw [hlen] at this
        simpa using this
      have := ih hlt
      simp only [hlen]
      simpa using this
    · have hcons : (x :: xs).takeWhile p = [] := by
        simp [List.takeWhile_cons, hp]
      simp only [hcons, List.length_nil]
      simpa using hp

/-- Auxiliary: each takeWhile element is the underlying element in place. -/
theorem takeWhile_get (p : α → Bool) (l : List α) (k : ℕ)
    (h : k < (l.takeWhile p).length) :
    ∃ h2 : k < l.length, (l.takeWhile p).get ⟨k, h⟩ = l.get ⟨k, h2⟩ := by
  have hpre : l.takeWhile p <+: l := List.takeWhile_prefix p
  refine ⟨h.trans_le hpre.length_le, ?_⟩
  have h3 := hpre.getElem h
  simpa [List.get_eq_getElem] using h3

/-- Auxiliary: without uint32 wrap-around, the bottom-left relative tag is
strictly above the tag itself (it adds a full row minus one cell). -/
theorem relTag_bottomLeft_gt (t : ℕ)
    (h : t + 2 ^ yShift + 2 ^ xShift < 4294967296) :
    t < computeRelativeTag t (-1) 1 := by
  unfold computeRelativeTag yShift xShift
  unfold yShift xShift at h
  have h1 : (0 : ℤ) ≤ (t : ℤ) + 1 * 2 ^ 20 + (-1) * 2 ^ 8 := by
    push_cast
    omega
  have h2 : (t : ℤ) + 1 * 2 ^ 20 + (-1) * 2 ^ 8 < 4294967296 := by
    push_cast at h ⊢
    omega
  rw [Int.emod_eq_of_lt h1 h2]
  omega

/-- Auxiliary: an appended contact stores its two arguments as indices. -/
theorem addContactOpt_indices (invSqrtQ : ℚ → ℚ) (st : b2ParticleSystem)
    (a b : ℤ) (ct : b2ParticleContact)
    (h : st.addContactOpt invSqrtQ a b = some ct) :
    ct.indexA = a ∧ ct.indexB = b := by
  simp only [b2ParticleSystem.addContactOpt] at h
  by_cases hlt : Vec2.dot (Vec2.sub (st.getPos b) (st.getPos a))
      (Vec2.sub (st.getPos b) (st.getPos a)) < st.squaredDiameter
  · rw [if_pos hlt] at h
    have hrec := Option.some.inj h
    subst hrec
    exact ⟨rfl, rfl⟩
  · rw [if_neg hlt] at h
    exact absurd h (by simp)

/-- Auxiliary: every pair the broad-phase walk emits comes from two proxy
positions in strictly increasing order, provided the (sorted) tags are
nondecreasing and no relative tag wraps around 2^32. -/
theorem broadPhaseAux_mem (ps : List Proxy)
    (hmono : ∀ m n : Fin ps.length, m ≤ n →
      (ps.get m).tag ≤ (ps.get n).tag)
    (hsafe : ∀ p ∈ ps, p.tag + 2 ^ yShift + 2 ^ xShift < 4294967296) :
    ∀ (fuel i c : ℕ) (xy : ℤ × ℤ), xy ∈ broadPhaseAux ps fuel i c →
    ∃ iA iB : Fin ps.length, iA < iB ∧
      xy = ((ps.get iA).index, (ps.get iB).index) := by
  intro fuel
  induction fuel with
  | zero => intro i c xy h; simp [broadPhaseAux] at h
  | succ fuel ih =>
    intro i c xy h
    cases hget : ps.get? i with
    | none => rw [broadPhaseAux, hget] at h; simp at h
    | some a =>
      rw [broadPhaseAux, hget] at h
      obtain ⟨hi, ha⟩ := List.get?_eq_some.mp hget
      have htaglt : a.tag < computeRelativeTag a.tag (-1) 1 :=
        relTag_bottomLeft_gt a.tag (hsafe a (List.get?_mem hget))
      simp only [List.mem_append, List.mem_map] at h
      generalize hbl : computeRelativeTag a.tag (-1) 1 = bl at h htaglt
      rcases h with (⟨b, hb, hxy⟩ | ⟨b, hb, hxy⟩) | hrec
      · -- inner1: b sits after position i in the same row
        obtain ⟨⟨k, hk⟩, hbk⟩ := List.mem_iff_get.mp hb
        obtain ⟨hk2, hkeq⟩ := takeWhile_get _ _ k hk
        have hik : i + 1 + k < ps.length := by
          have h5 := hk2
          simp only [List.length_drop] at h5
          omega
        have hbeq : b = ps.get ⟨i + 1 + k, hik⟩ := by
          rw [← hbk, hkeq]
          simp [List.get_eq_getElem, List.getElem_drop]
        refine ⟨⟨i, hi⟩, ⟨i + 1 + k, hik⟩, ?_, ?_⟩
        · simp only [Fin.mk_lt_mk]
          omega
        · rw [← hxy, ha, hbeq]
      · -- inner2: b sits at or after the advanced cursor in the row below
        obtain ⟨⟨k, hk⟩, hbk⟩ := List.mem_iff_get.mp hb
        obtain ⟨hk2, hkeq⟩ := takeWhile_get _ _ k hk
        set m := ((ps.drop c).takeWhile
          (fun b => decide (b.tag < bl))).length with hm
        have hc2 : c + m + k < ps.length := by
          have h5 := hk2
          simp only [List.length_drop] at h5
          omega
        have hbeq : b = ps.get ⟨c + m + k, hc2⟩ := by
          rw [← hbk, hkeq]
          simp [List.get_eq_getElem, List.getElem_drop]
        have hstoplt : m < (ps.drop c).length := by
          have h5 := hk2
          simp only [List.length_drop] at h5 ⊢
          omega
        have hstop := takeWhile_stop
          (fun b => decide (b.tag < bl)) (ps.drop c) hstoplt
        have hcstop : c + m < ps.length := by
          have h5 := hstoplt
          simp only [List.length_drop] at h5
          omega
        have hstopeq : (ps.drop c).get ⟨m, hstoplt⟩ =
            ps.get ⟨c + m, hcstop⟩ := by
          simp [List.get_eq_getElem, List.getElem_drop]
        have hge : bl ≤ (ps.get ⟨c + m, hcstop⟩).tag := by
          rw [← hstopeq]
          simpa using hstop
        have hbtag : bl ≤ (ps.get ⟨c + m + k, hc2⟩).tag := by
          refine le_trans hge (hmono _ _ ?_)
          simp only [Fin.mk_le_mk]
          omega
        have hij : i < c + m + k := by
          by_contra hle
          push_neg at hle
          have h6 := hmono ⟨c + m + k, hc2⟩ ⟨i, hi⟩ (by simpa using hle)
          rw [ha] at h6
          omega
        refine ⟨⟨i, hi⟩, ⟨c + m + k, hc2⟩, ?_, ?_⟩
        · simpa using hij
        · rw [← hxy, ha, hbeq]
      · exact ih _ _ _ hrec

/-- Auxiliary: recomputing tags keeps the proxy index column unchanged. -/
theorem updateProxyTags_map_index (st : b2ParticleSystem) :
    st.updateProxyTags.map Proxy.index = st.proxies.map Proxy.index := by
  unfold b2ParticleSystem.updateProxyTags
  rw [List.map_map]
  rfl

/-- Auxiliary: the recomputed proxy tags of the two-particle state. -/
theorem contactPairState_updateProxyTags :
    contactPairState.updateProxyTags =
      [⟨2148008064, 0⟩, ⟨2148007936, 1⟩] := by
  norm_num [b2ParticleSystem.updateProxyTags, contactPairState, emptySystem,
    b2ParticleSystem.getPos, computeTag, truncU32, yShift, xShift,
    yTagOffset, xTagOffset, xScale]
  decide

/-- Auxiliary: the contact list of the two-particle state after
UpdateContacts: a single contact with indexA = 1 and indexB = 0. -/
theorem contactPairState_contacts :
    (updateContacts (fun _ => 1) contactPairState false).contacts =
      [⟨1, 0, 1 / 2, ⟨1, 0⟩, 0⟩] := by
  rw [updateContacts_contacts (fun _ => 1) contactPairState false,
    contactPairState_updateProxyTags]
  rw [show sortProxies [⟨2148008064, 0⟩, ⟨2148007936, 1⟩] =
      [⟨2148007936, 1⟩, ⟨2148008064, 0⟩] by decide]
  rw [show broadPhasePairs [⟨2148007936, 1⟩, ⟨2148008064, 0⟩] =
      [((1 : ℤ), (0 : ℤ))] by decide]
  have h4 : contactPairState.addContactOpt (fun _ => 1) 1 0 =
      some ⟨1, 0, 1 / 2, ⟨1, 0⟩, 0⟩ := by
    norm_num [b2ParticleSystem.addContactOpt, contactPairState, emptySystem,
      b2ParticleSystem.getPos, b2ParticleSystem.getFlags, Vec2.sub, Vec2.dot,
      Vec2.smul, Vec2.zero]
  simp [h4, contactIsZombie, b2_zombieParticle]

/-- C3 counterexample: in the two-particle state the single stored contact
has indexA = 1 and indexB = 0, so indexA < indexB fails. -/
theorem contacts_ordered_counterexample :
    ¬ (∀ ct ∈ (updateContacts (fun _ => 1) contactPairState false).contacts,
        ct.indexA < ct.indexB) := by
  intro h
  have hmem : (⟨1, 0, 1 / 2, ⟨1, 0⟩, 0⟩ : b2ParticleContact) ∈
      (updateContacts (fun _ => 1) contactPairState false).contacts := by
    rw [contactPairState_contacts]
    simp
  have := h _ hmem
  exact absurd this (by decide)

/-- C3 amended: for every stored contact the two endpoints are distinct
particles (indexA comes before indexB in sorted-proxy order, not in particle
order), provided the proxy indices are pairwise distinct and no recomputed
tag is close enough to 2^32 for the relative-tag arithmetic to wrap. -/
theorem updateContacts_indexA_ne_indexB (invSqrtQ : ℚ → ℚ)
    (st : b2ParticleSystem) (ez : Bool)
    (hnodup : (st.proxies.map Proxy.index).Nodup)
    (hsafe : ∀ p ∈ st.updateProxyTags,
      p.tag + 2 ^ yShift + 2 ^ xShift < 4294967296) :
    ∀ ct ∈ (updateContacts invSqrtQ st ez).contacts,
      ct.indexA ≠ ct.indexB := by
  intro ct hct
  rw [updateContacts_contacts] at hct
  have hct2 := List.mem_of_mem_filter hct
  obtain ⟨ab, hab, habeq⟩ := List.mem_filterMap.mp hct2
  have hsorted : List.Sorted proxyOrder (sortProxies st.updateProxyTags) :=
    List.sorted_insertionSort proxyOrder st.updateProxyTags
  have hperm : (sortProxies st.updateProxyTags).Perm st.updateProxyTags :=
    List.perm_insertionSort proxyOrder st.updateProxyTags
  have hmono : ∀ m n : Fin (sortProxies st.updateProxyTags).length, m ≤ n →
      ((sortProxies st.updateProxyTags).get m).tag ≤
        ((sortProxies st.updateProxyTags).get n).tag := by
    intro m n hmn
    rcases Fin.eq_or_lt_of_le hmn with heq | hlt
    · rw [heq]
    · have := hsorted.rel_get_of_lt hlt
      unfold proxyOrder at this
      omega
  have hsafe2 : ∀ p ∈ sortProxies st.updateProxyTags,
      p.tag + 2 ^ yShift + 2 ^ xShift < 4294967296 := by
    intro p hp
    exact hsafe p (hperm.mem_iff.mp hp)
  obtain ⟨iA, iB, hABlt, habval⟩ := broadPhaseAux_mem
    (sortProxies st.updateProxyTags) hmono hsafe2 _ 0 0 ab hab
  have hnd2 : ((sortProxies st.updateProxyTags).map Proxy.index).Nodup := by
    have hpermmap := hperm.map Proxy.index
    rw [List.Perm.nodup_iff hpermmap, updateProxyTags_map_index]
    exact hnodup
  obtain ⟨hAeq, hBeq⟩ :=
    addContactOpt_indices invSqrtQ st ab.1 ab.2 ct habeq
  intro heq
  have h1 : ct.indexA = ((sortProxies st.updateProxyTags).get iA).index := by
    rw [hAeq, habval]
  have h2 : ct.indexB = ((sortProxies st.updateProxyTags).get iB).index := by
    rw [hBeq, habval]
  have hii : ((sortProxies st.updateProxyTags).get iA).index =
      ((sortProxies st.updateProxyTags).get iB).index := by
    rw [← h1, ← h2, heq]
  have hIA : iA.val < ((sortProxies st.updateProxyTags).map
      Proxy.index).length := by simp
  have hIB : iB.val < ((sortProxies st.updateProxyTags).map
      Proxy.index).length := by simp
  have hm : ((sortProxies st.updateProxyTags).map Proxy.index)[iA.val] =
      ((sortProxies st.updateProxyTags).map Proxy.index)[iB.val] := by
    simp only [List.getElem_map]
    simpa [List.get_eq_getElem] using hii
  have hvals := (hnd2.getElem_inj_iff).mp hm
  have := Fin.lt_iff_val_lt_val.mp hABlt
  omega

/-- C3 amended witness: the single contact stored for the two-particle
state has distinct endpoints. -/
theorem updateContacts_indexA_ne_indexB_witness :
    ((updateContacts (fun _ => 1) contactPairState false).contacts.getD 0
        ⟨0, 0, 0, Vec2.zero, 0⟩).indexA ≠
      ((updateContacts (fun _ => 1) contactPairState false).contacts.getD 0
        ⟨0, 0, 0, Vec2.zero, 0⟩).indexB :=
  updateContacts_indexA_ne_indexB (fun _ => 1) contactPairState false
    (by decide)
    (by rw [contactPairState_updateProxyTags]; decide)
    _
    (by rw [contactPairState_contacts]; exact List.mem_cons_self _ _)

/-- Auxiliary: the newIndices array has one entry per scanned flag. -/
theorem zombieNI_length (fl : List ℕ) : ∀ n : ℤ,
    (zombieNewIndicesAux fl n).length = fl.length := by
  induction fl with
  | nil => intro n; rfl
  | cons f fl ih =>
    intro n
    unfold zombieNewIndicesAux
    by_cases h : isZombieFlags f <;> simp [h, ih]

/-- Auxiliary: every newIndices entry is the invalid sentinel or a fresh
index below the survivor count. -/
theorem zombieNI_bound (fl : List ℕ) : ∀ (n j : ℤ),
    j ∈ zombieNewIndicesAux fl n →
    j = b2_invalidParticleIndex ∨ (n ≤ j ∧ j < n + survivorCount fl) := by
  induction fl with
  | nil => intro n j h; simp [zombieNewIndicesAux] at h
  | cons f fl ih =>
    intro n j h
    unfold zombieNewIndicesAux at h
    by_cases hz : isZombieFlags f
    · rw [if_pos hz] at h
      have hsc : survivorCount (f :: fl) = survivorCount fl := by
        simp [survivorCount, List.countP_cons, hz]
      rcases List.mem_cons.mp h with h1 | h1
      · exact Or.inl h1
      · rcases ih n j h1 with h2 | h2
        · exact Or.inl h2
        · exact Or.inr ⟨h2.1, by rw [hsc]; exact h2.2⟩
    · rw [if_neg hz] at h
      have hsc : survivorCount (f :: fl) = survivorCount fl + 1 := by
        simp [survivorCount, List.countP_cons, hz]
      rcases List.mem_cons.mp h with h1 | h1
      · subst h1
        refine Or.inr ⟨le_refl _, ?_⟩
        rw [hsc]
        push_cast
        omega
      · rcases ih (n + 1) j h1 with h2 | h2
        · exact Or.inl h2
        · refine Or.inr ⟨by omega, ?_⟩
          rw [hsc]
          push_cast
          omega

/-- Auxiliary: a newIndex read is the sentinel or a member of the array. -/
theorem newIdxAt_cases (ni : List ℤ) (i : ℤ) :
    newIdxAt ni i = b2_invalidParticleIndex ∨ newIdxAt ni i ∈ ni := by
  unfold newIdxAt
  by_cases h : i.toNat < ni.length
  · right
    rw [List.getD_eq_getElem _ _ h]
    exact List.getElem_mem h
  · left
    push_neg at h
    exact List.getD_eq_default _ _ h

/-- Auxiliary: the newIndices entry of a survivor counts the survivors
before it. -/
theorem zombieNI_getD_survivor (fl : List ℕ) : ∀ (n : ℤ) (i : ℕ),
    i < fl.length → isZombieFlags (fl.getD i 0) = false →
    (zombieNewIndicesAux fl n).getD i b2_invalidParticleIndex =
      n + ((fl.take i).countP (fun f => !(isZombieFlags f)) : ℤ) := by
  induction fl with
  | nil => intro n i h; simp at h
  | cons f fl ih =>
    intro n i hi hz
    cases i with
    | zero =>
      have hzf : isZombieFlags f = false := by simpa using hz
      unfold zombieNewIndicesAux
      rw [if_neg (by simp [hzf])]
      simp
    | succ i =>
      unfold zombieNewIndicesAux
      have hi2 : i < fl.length := by simpa using hi
      have hz2 : isZombieFlags (fl.getD i 0) = false := by simpa using hz
      by_cases hzf : isZombieFlags f
      · rw [if_pos hzf]
        have hcnt : ((f :: fl).take (i + 1)).countP
            (fun x => !(isZombieFlags x)) =
            (fl.take i).countP (fun x => !(isZombieFlags x)) := by
          simp [List.take_succ_cons, List.countP_cons, hzf]
        rw [hcnt]
        simpa using ih n i hi2 hz2
      · rw [if_neg hzf]
        have hcnt : ((f :: fl).take (i + 1)).countP
            (fun x => !(isZombieFlags x)) =
            (fl.take i).countP (fun x => !(isZombieFlags x)) + 1 := by
          simp [List.take_succ_cons, List.countP_cons, hzf]
        rw [hcnt]
        have := ih (n + 1) i hi2 hz2
        simp only [List.getD_cons_succ]
        rw [this]
        push_cast
        ring

/-- Auxiliary: with no zombies at all, the newIndices array is the
identity. -/
theorem zombieNI_getD_id (fl : List ℕ)
    (h : ∀ f ∈ fl, isZombieFlags f = false) (i : ℕ) (hi : i < fl.length) :
    (zombieNewIndicesAux fl 0).getD i b2_invalidParticleIndex = (i : ℤ) := by
  have hz : isZombieFlags (fl.getD i 0) = false := by
    have : fl.getD i 0 ∈ fl := by
      rw [List.getD_eq_getElem _ _ hi]
      exact List.getElem_mem hi
    exact h _ this
  rw [zombieNI_getD_survivor fl 0 i hi hz]
  have : (fl.take i).countP (fun f => !(isZombieFlags f)) =
      (fl.take i).length := by
    apply List.countP_eq_length.mpr
    intro x hx
    simp [h x (List.mem_of_mem_take hx)]
  rw [this]
  simp [List.length_take, Nat.min_eq_left (le_of_lt hi)]

/-- Auxiliary: the survivor buffer has one entry per surviving flag. -/
theorem survivorsOf_length (fl : List ℕ) : ∀ (buf : List α),
    fl.length ≤ buf.length →
    (survivorsOf fl buf).length = survivorCount fl := by
  induction fl with
  | nil => intro buf h; simp [survivorsOf, survivorCount]
  | cons f fl ih =>
    intro buf h
    cases buf with
    | nil => simp at h
    | cons b buf =>
      have h2 : fl.length ≤ buf.length := by simpa using h
      unfold survivorsOf survivorCount at ih ⊢
      simp only [List.zip_cons_cons, List.filter_cons, List.countP_cons]
      by_cases hz : isZombieFlags f <;> simp [hz, ih buf h2]

/-- Auxiliary: compaction at a surviving head keeps the head in place. -/
theorem compactBuf_cons_surv (f : ℕ) (fl : List ℕ) (b : α) (buf : List α)
    (h : isZombieFlags f = false) :
    compactBuf (f :: fl) (b :: buf) = b :: compactBuf fl buf := by
  unfold compactBuf survivorsOf survivorCount
  simp [List.zip_cons_cons, List.filter_cons, h, List.countP_cons]

/-- Auxiliary: compaction at a zombie head drops it but keeps the stale
tail positions of the original buffer. -/
theorem compactBuf_cons_zombie (f : ℕ) (fl : List ℕ) (b : α) (buf : List α)
    (h : isZombieFlags f = true) :
    compactBuf (f :: fl) (b :: buf) =
      survivorsOf fl buf ++ (b :: buf).drop (survivorCount fl) := by
  unfold compactBuf survivorsOf survivorCount
  simp [List.zip_cons_cons, List.filter_cons, h, List.countP_cons]

/-- Auxiliary: compaction preserves the buffer length. -/
theorem compactBuf_length (fl : List ℕ) : ∀ (buf : List α),
    fl.length ≤ buf.length → (compactBuf fl buf).length = buf.length := by
  intro buf h
  unfold compactBuf
  rw [List.length_append, survivorsOf_length fl buf h, List.length_drop]
  have : survivorCount fl ≤ fl.length := List.countP_le_length _
  omega

/-- Auxiliary: the survivor count of the prefix before a survivor is below
the total survivor count. -/
theorem countP_take_lt (fl : List ℕ) : ∀ (i : ℕ), i < fl.length →
    isZombieFlags (fl.getD i 0) = false →
    (fl.take i).countP (fun x => !(isZombieFlags x)) < survivorCount fl := by
  induction fl with
  | nil => intro i h; simp at h
  | cons f fl ih =>
    intro i hi hz
    cases i with
    | zero =>
      have hzf : isZombieFlags f = false := by simpa using hz
      simp [survivorCount, List.countP_cons, hzf]
    | succ i =>
      have hi2 : i < fl.length := by simpa using hi
      have hz2 : isZombieFlags (fl.getD i 0) = false := by simpa using hz
      have := ih i hi2 hz2
      unfold survivorCount at this ⊢
      by_cases hzf : isZombieFlags f <;>
        simp [List.take_succ_cons, List.countP_cons, hzf] <;> omega

/-- Auxiliary: reading a compacted buffer at a survivor's new index gives
its old entry. -/
theorem compactBuf_getD (fl : List ℕ) :
    ∀ (buf : List α) (d : α) (i : ℕ), i < fl.length →
    fl.length ≤ buf.length → isZombieFlags (fl.getD i 0) = false →
    (compactBuf fl buf).getD
      ((fl.take i).countP (fun f => !(isZombieFlags f))) d = buf.getD i d := by
  induction fl with
  | nil => intro buf d i h; simp at h
  | cons f fl ih =>
    intro buf d i hi hlen hz
    cases buf with
    | nil => simp at hlen
    | cons b buf =>
      have hlen2 : fl.length ≤ buf.length := by simpa using hlen
      cases i with
      | zero =>
        have hzf : isZombieFlags f = false := by simpa using hz
        rw [compactBuf_cons_surv f fl b buf hzf]
        simp
      | succ i =>
        have hi2 : i < fl.length := by simpa using hi
        have hz2 : isZombieFlags (fl.getD i 0) = false := by simpa using hz
        by_cases hzf : isZombieFlags f
        · rw [compactBuf_cons_zombie f fl b buf hzf]
          have hcnt : ((f :: fl).take (i + 1)).countP
              (fun x => !(isZombieFlags x)) =
              (fl.take i).countP (fun x => !(isZombieFlags x)) := by
            simp [List.take_succ_cons, List.countP_cons, hzf]
          rw [hcnt]
          have hlt : (fl.take i).countP (fun x => !(isZombieFlags x)) <
              (survivorsOf fl buf).length := by
            rw [survivorsOf_length fl buf hlen2]
            exact countP_take_lt fl i hi2 hz2
          have hsplit : (survivorsOf fl buf ++
              (b :: buf).drop (survivorCount fl)).getD
              ((fl.take i).countP (fun x => !(isZombieFlags x))) d =
              (survivorsOf fl buf).getD
              ((fl.take i).countP (fun x => !(isZombieFlags x))) d :=
            List.getD_append _ _ _ _ hlt
          have hsplit2 : (compactBuf fl buf).getD
              ((fl.take i).countP (fun x => !(isZombieFlags x))) d =
              (survivorsOf fl buf).getD
              ((fl.take i).countP (fun x => !(isZombieFlags x))) d := by
            unfold compactBuf
            exact List.getD_append _ _ _ _ hlt
          rw [hsplit, ← hsplit2, ih buf d i hi2 hlen2 hz2]
          simp
        · have hzf2 : isZombieFlags f = false := by simpa using hzf
          rw [compactBuf_cons_surv f fl b buf hzf2]
          have hcnt : ((f :: fl).take (i + 1)).countP
              (fun x => !(isZombieFlags x)) =
              (fl.take i).countP (fun x => !(isZombieFlags x)) + 1 := by
            simp [List.take_succ_cons, List.countP_cons, hzf2]
          rw [hcnt]
          simp only [List.getD_cons_succ]
          exact ih buf d i hi2 hlen2 hz2

/-- Auxiliary: compaction with no zombies is the identity. -/
theorem compactBuf_id (fl : List ℕ)
    (h : ∀ f ∈ fl, isZombieFlags f = false) :
    ∀ (buf : List α), compactBuf fl buf = buf := by
  induction fl with
  | nil => intro buf; simp [compactBuf, survivorsOf, survivorCount]
  | cons f fl ih =>
    intro buf
    have hf : isZombieFlags f = false := h f (List.mem_cons_self f fl)
    have h2 : ∀ x ∈ fl, isZombieFlags x = false := fun x hx =>
      h x (List.mem_cons_of_mem f hx)
    cases buf with
    | nil => simp [compactBuf, survivorsOf]
    | cons b buf => rw [compactBuf_cons_surv f fl b buf hf, ih h2 buf]

/-- Auxiliary: selecting survivors of a prefix against the original list is
filtering the prefix. -/
theorem survivorsOf_take_self (l : List ℕ) : ∀ n : ℕ,
    survivorsOf (l.take n) l =
      (l.take n).filter (fun f => !(isZombieFlags f)) := by
  induction l with
  | nil => intro n; simp [survivorsOf]
  | cons x xs ih =>
    intro n
    cases n with
    | zero => simp [survivorsOf]
    | succ n =>
      have := ih n
      unfold survivorsOf at this ⊢
      simp only [List.take_succ_cons, List.zip_cons_cons, List.filter_cons]
      by_cases hz : isZombieFlags x <;> simp [hz, this]

/-- Auxiliary: every prefix entry of a self-compacted flag buffer is a
survivor. -/
theorem compactBuf_prefix_nonzombie (l : List ℕ) (n k : ℕ)
    (hn : n ≤ l.length) (hk : k < survivorCount (l.take n)) :
    isZombieFlags ((compactBuf (l.take n) l).getD k 0) = false := by
  have hlen : (l.take n).length ≤ l.length := by
    simp [List.length_take]
  have hlt : k < (survivorsOf (l.take n) l).length := by
    rw [survivorsOf_length _ _ hlen]
    exact hk
  have hg : (compactBuf (l.take n) l).getD k 0 =
      (survivorsOf (l.take n) l).getD k 0 := by
    unfold compactBuf
    exact List.getD_append _ _ _ _ hlt
  rw [hg, survivorsOf_take_self]
  have hlt2 : k < ((l.take n).filter (fun f => !(isZombieFlags f))).length := by
    rw [← survivorsOf_take_self]
    exact hlt
  rw [List.getD_eq_getElem _ _ hlt2]
  have hmem := List.getElem_mem hlt2
  have := List.of_mem_filter hmem
  simpa using this

/-- Auxiliary: buffer extension is reflexive. -/
theorem extendsBy_refl (z : α) (l : List α) : extendsBy z l l :=
  ⟨0, by simp⟩

/-- Auxiliary: buffer extension is transitive. -/
theorem extendsBy_trans (z : α) (l1 l2 l3 : List α)
    (h1 : extendsBy z l1 l2) (h2 : extendsBy z l2 l3) :
    extendsBy z l1 l3 := by
  obtain ⟨m1, rfl⟩ := h1
  obtain ⟨m2, rfl⟩ := h2
  exact ⟨m1 + m2, by rw [List.append_assoc, ← List.replicate_add]⟩

/-- Auxiliary: growTo extends the buffer. -/
theorem growTo_extendsBy (cap : ℕ) (z : α) (l : List α) :
    extendsBy z l (growTo cap z l) :=
  ⟨cap - l.length, rfl⟩

/-- Auxiliary: reading with the pad value as default ignores extension. -/
theorem extendsBy_getD (z : α) (l l2 : List α) (h : extendsBy z l l2)
    (k : ℕ) : l2.getD k z = l.getD k z := by
  obtain ⟨m, rfl⟩ := h
  by_cases hk : k < l.length
  · exact List.getD_append _ _ _ _ hk
  · push_neg at hk
    rw [List.getD_eq_default _ _ hk]
    by_cases hk2 : k < l.length + m
    · have hk3 : k < (l ++ List.replicate m z).length := by simp; omega
      rw [List.getD_eq_getElem _ _ hk3]
      rw [List.getElem_append_right (by omega)]
      simp [List.getElem_replicate]
    · push_neg at hk2
      rw [List.getD_eq_default]
      simp
      omega

/-- Auxiliary: a prefix inside the original length ignores extension. -/
theorem extendsBy_take (z : α) (l l2 : List α) (h : extendsBy z l l2)
    (n : ℕ) (hn : n ≤ l.length) : l2.take n = l.take n := by
  obtain ⟨m, rfl⟩ := h
  rw [List.take_append_of_le_length hn]

/-- Auxiliary: extension never shrinks. -/
theorem extendsBy_length (z : α) (l l2 : List α) (h : extendsBy z l l2) :
    l.length ≤ l2.length := by
  obtain ⟨m, rfl⟩ := h
  simp

/-- Auxiliary: a countP partition of a list's length. -/
theorem countP_add_countP_not (p : α → Bool) (l : List α) :
    l.countP p + l.countP (fun a => !(p a)) = l.length := by
  induction l with
  | nil => rfl
  | cons a l ih => by_cases h : p a <;> simp [List.countP_cons, h] <;> omega

/-- Auxiliary: reading inside a prefix reads the original list. -/
theorem getD_take_eq (l : List α) (n i : ℕ) (d : α) (hi : i < n)
    (hl : i < l.length) : (l.take n).getD i d = l.getD i d := by
  rw [List.getD_eq_getElem _ _ (by simp [List.length_take]; omega),
    List.getD_eq_getElem _ _ hl]
  exact List.getElem_take l

/-- Auxiliary: an empty int-for loop iteration space. -/
theorem intRange_nil (a b : ℤ) (h : b ≤ a) : intRange a b = [] := by
  unfold intRange
  have h1 : (b - a).toNat = 0 := by omega
  rw [h1]
  rfl

/-- Auxiliary: peeling the first iteration off an int-for loop. -/
theorem intRange_cons (a b : ℤ) (h : a < b) :
    intRange a b = a :: intRange (a + 1) b := by
  unfold intRange
  have h1 : (b - a).toNat = (b - (a + 1)).toNat + 1 := by omega
  rw [h1, List.range_succ_eq_map, List.map_cons, List.map_map]
  refine congrArg₂ _ (by simp) ?_
  apply List.map_congr_left
  intro k hk
  simp [Function.comp, Int.ofNat_succ]
  omega

/-- Auxiliary: membership in an int-for loop iteration space. -/
theorem intRange_mem (a b i : ℤ) (h : i ∈ intRange a b) : a ≤ i ∧ i < b := by
  unfold intRange at h
  obtain ⟨k, hk, rfl⟩ := List.mem_map.mp h
  have := List.mem_range.mp hk
  rw [show Int.ofNat k = (k : ℤ) from rfl]
  omega

/-- Auxiliary: lazy-buffer extension is reflexive. -/
theorem optExtendsBy_refl (z : α) (o : Option (List α)) :
    optExtendsBy z o o := by
  cases o with
  | none => trivial
  | some l => exact extendsBy_refl z l

/-- Auxiliary: lazy-buffer extension is transitive. -/
theorem optExtendsBy_trans (z : α) (o1 o2 o3 : Option (List α))
    (h1 : optExtendsBy z o1 o2) (h2 : optExtendsBy z o2 o3) :
    optExtendsBy z o1 o3 := by
  cases o1 <;> cases o2 <;> cases o3 <;>
    first
    | trivial
    | exact h1.elim
    | exact h2.elim
    | exact extendsBy_trans z _ _ _ h1 h2

/-- Auxiliary: lazy-buffer reads with the pad default ignore extension. -/
theorem optExtendsBy_optD (z : α) (o1 o2 : Option (List α))
    (h : optExtendsBy z o1 o2) (i : ℕ) : optD o2 i z = optD o1 i z := by
  cases o1 <;> cases o2 <;> first
    | rfl
    | exact h.elim
    | exact extendsBy_getD z _ _ h i

/-- Auxiliary: a lazily allocated buffer extends into its grown copy. -/
theorem optExtendsBy_map_growTo (cap : ℕ) (z : α) (o : Option (List α)) :
    optExtendsBy z o (o.map (growTo cap z)) := by
  cases o with
  | none => trivial
  | some l => exact growTo_extendsBy cap z l

/-- Auxiliary: stepEq is reflexive. -/
theorem stepEq_refl (s : b2ParticleSystem) : stepEq s s :=
  ⟨rfl, rfl, rfl, extendsBy_refl _ _, extendsBy_refl _ _, extendsBy_refl _ _,
    optExtendsBy_refl _ _, optExtendsBy_refl _ _, rfl, rfl, rfl, rfl, rfl⟩

/-- Auxiliary: stepEq is transitive. -/
theorem stepEq_trans (s1 s2 s3 : b2ParticleSystem) (h1 : stepEq s1 s2)
    (h2 : stepEq s2 s3) : stepEq s1 s3 := by
  obtain ⟨a1, a2, a3, a4, a5, a6, a7, a8, a9, a10, a11, a12, a13⟩ := h1
  obtain ⟨b1, b2, b3, b4, b5, b6, b7, b8, b9, b10, b11, b12, b13⟩ := h2
  exact ⟨b1.trans a1, b2.trans a2, b3.trans a3,
    extendsBy_trans _ _ _ _ a4 b4, extendsBy_trans _ _ _ _ a5 b5,
    extendsBy_trans _ _ _ _ a6 b6, optExtendsBy_trans _ _ _ _ a7 b7,
    optExtendsBy_trans _ _ _ _ a8 b8, b9.trans a9, b10.trans a10,
    b11.trans a11, b12.trans a12, b13.trans a13⟩

/-- Auxiliary: capacity reallocation only pads the tracked buffers. -/
theorem realloc_stepEq (st : b2ParticleSystem) (cap : ℕ) :
    stepEq st (st.reallocateInternalAllocatedBuffers cap) := by
  unfold b2ParticleSystem.reallocateInternalAllocatedBuffers
  split
  · unfold b2ParticleSystem.stepEq
    refine ⟨rfl, rfl, rfl, ?_, ?_, ?_, ?_, ?_, rfl, rfl, rfl, rfl, rfl⟩
    · show extendsBy 0 st.flagsData
        (if st.flagsUserCap = 0 then growTo _ 0 st.flagsData
          else st.flagsData)
      split
      · exact growTo_extendsBy _ _ _
      · exact extendsBy_refl _ _
    · show extendsBy Vec2.zero st.positionData
        (if st.positionUserCap = 0 then growTo _ Vec2.zero st.positionData
          else st.positionData)
      split
      · exact growTo_extendsBy _ _ _
      · exact extendsBy_refl _ _
    · show extendsBy Vec2.zero st.velocityData
        (if st.velocityUserCap = 0 then growTo _ Vec2.zero st.velocityData
          else st.velocityData)
      split
      · exact growTo_extendsBy _ _ _
      · exact extendsBy_refl _ _
    · show optExtendsBy 0 st.colorData
        (if st.colorUserCap = 0 then st.colorData.map (growTo _ 0)
          else st.colorData)
      split
      · exact optExtendsBy_map_growTo _ _ _
      · exact optExtendsBy_refl _ _
    · show optExtendsBy 0 st.userDataData
        (if st.userDataUserCap = 0 then st.userDataData.map (growTo _ 0)
          else st.userDataData)
      split
      · exact optExtendsBy_map_growTo _ _ _
      · exact optExtendsBy_refl _ _
  · exact stepEq_refl st

/-- Auxiliary: the group union-flag dirty bit is not tracked by stepEq. -/
theorem stepEq_updNUGF (s1 s2 : b2ParticleSystem) (h : stepEq s1 s2)
    (b : Bool) : stepEq s1 { s2 with needsUpdateAllGroupFlags := b } := by
  obtain ⟨a1, a2, a3, a4, a5, a6, a7, a8, a9, a10, a11, a12, a13⟩ := h
  exact ⟨a1, a2, a3, a4, a5, a6, a7, a8, a9, a10, a11, a12, a13⟩

/-- Auxiliary: the depth buffer is not tracked by stepEq. -/
theorem stepEq_updDepth (s1 s2 : b2ParticleSystem) (h : stepEq s1 s2)
    (o : Option (List ℚ)) : stepEq s1 { s2 with depthData := o } := by
  obtain ⟨a1, a2, a3, a4, a5, a6, a7, a8, a9, a10, a11, a12, a13⟩ := h
  exact ⟨a1, a2, a3, a4, a5, a6, a7, a8, a9, a10, a11, a12, a13⟩

/-- Auxiliary: the group union-flag cache is not tracked by stepEq. -/
theorem stepEq_updAGF (s1 s2 : b2ParticleSystem) (h : stepEq s1 s2)
    (n : ℕ) : stepEq s1 { s2 with allGroupFlags := n } := by
  obtain ⟨a1, a2, a3, a4, a5, a6, a7, a8, a9, a10, a11, a12, a13⟩ := h
  exact ⟨a1, a2, a3, a4, a5, a6, a7, a8, a9, a10, a11, a12, a13⟩

/-- Auxiliary: the group index buffer is not tracked by stepEq. -/
theorem stepEq_updGIdx (s1 s2 : b2ParticleSystem) (h : stepEq s1 s2)
    (l : List (Option ℕ)) : stepEq s1 { s2 with groupIdxData := l } := by
  obtain ⟨a1, a2, a3, a4, a5, a6, a7, a8, a9, a10, a11, a12, a13⟩ := h
  exact ⟨a1, a2, a3, a4, a5, a6, a7, a8, a9, a10, a11, a12, a13⟩

/-- Auxiliary: the group count is not tracked by stepEq. -/
theorem stepEq_updGCount (s1 s2 : b2ParticleSystem) (h : stepEq s1 s2)
    (n : ℕ) : stepEq s1 { s2 with groupCount := n } := by
  obtain ⟨a1, a2, a3, a4, a5, a6, a7, a8, a9, a10, a11, a12, a13⟩ := h
  exact ⟨a1, a2, a3, a4, a5, a6, a7, a8, a9, a10, a11, a12, a13⟩

/-- Auxiliary: a lazy buffer request only pads the tracked buffers. -/
theorem requestPB_stepEq (st : b2ParticleSystem) (buf : Option (List α))
    (z : α) : stepEq st (st.requestParticleBuffer buf z).1 := by
  cases buf with
  | some l => exact stepEq_refl st
  | none =>
    show stepEq st (if st.internalAllocatedCapacity = 0 then
        st.reallocateInternalAllocatedBuffers b2_minParticleBufferCapacity
      else st)
    split
    · exact realloc_stepEq st _
    · exact stepEq_refl st

/-- Auxiliary: SetParticleGroupFlags only pads the tracked buffers of the
system state. -/
theorem sgf_stepEq (st : b2ParticleSystem) (g : b2ParticleGroup) (f : ℕ) :
    stepEq st (st.setParticleGroupFlagsOn g f).1 := by
  unfold b2ParticleSystem.setParticleGroupFlagsOn
  dsimp only
  generalize (if (g.groupFlags ^^^ f) &&& b2_solidParticleGroup ≠ 0
    then f ||| b2_particleGroupNeedsUpdateDepth else f) = nf
  set s1 : b2ParticleSystem := if g.groupFlags &&& compl32 nf ≠ 0 then
      { st with needsUpdateAllGroupFlags := true } else st with hs1
  have h1 : stepEq st s1 := by
    rw [hs1]
    split
    · exact stepEq_updNUGF st st (stepEq_refl st) true
    · exact stepEq_refl st
  split
  · split
    · exact stepEq_updAGF _ _ (stepEq_updDepth _ _ (stepEq_trans _ _ _ h1
        (requestPB_stepEq s1 s1.depthData 0)) _) _
    · exact stepEq_updAGF _ _ h1 _
  · exact h1

/-- Auxiliary: SetParticleGroupFlags leaves the group's index range alone. -/
theorem sgf_snd_indices (st : b2ParticleSystem) (g : b2ParticleGroup)
    (f : ℕ) : (st.setParticleGroupFlagsOn g f).2.firstIndex = g.firstIndex ∧
      (st.setParticleGroupFlagsOn g f).2.lastIndex = g.lastIndex := by
  unfold b2ParticleSystem.setParticleGroupFlagsOn
  exact ⟨rfl, rfl⟩

/-- Auxiliary: a word with a known set bit masks to a nonzero word. -/
theorem and_ne_zero_of_testBit (x c : ℕ) (i : ℕ) (hx : x.testBit i = true)
    (hc : c.testBit i = true) : x &&& c ≠ 0 := by
  intro h
  have h2 := congrArg (fun n => n.testBit i) h
  simp only [Nat.testBit_and, hx, hc, Nat.zero_testBit, Bool.and_self] at h2
  exact absurd h2 (by decide)

/-- Auxiliary: the group-range fold keeps its accumulator inside the new
index range when every newIndices entry is a sentinel or a live index. -/
theorem zgAux_bounds (ni : List ℤ) (nc : ℕ)
    (hni : ∀ j ∈ ni, j = b2_invalidParticleIndex ∨ (0 ≤ j ∧ j < (nc : ℤ))) :
    ∀ (l : List ℤ) (acc : ℤ × ℤ × Bool), 0 ≤ acc.1 → acc.2.1 ≤ (nc : ℤ) →
    0 ≤ (l.foldl (fun (acc : ℤ × ℤ × Bool) i =>
        let j := newIdxAt ni i
        if j ≥ 0 then (min acc.1 j, max acc.2.1 (j + 1), acc.2.2)
        else (acc.1, acc.2.1, true)) acc).1 ∧
      (l.foldl (fun (acc : ℤ × ℤ × Bool) i =>
        let j := newIdxAt ni i
        if j ≥ 0 then (min acc.1 j, max acc.2.1 (j + 1), acc.2.2)
        else (acc.1, acc.2.1, true)) acc).2.1 ≤ (nc : ℤ) := by
  intro l
  induction l with
  | nil => intro acc h1 h2; exact ⟨h1, h2⟩
  | cons i l ih =>
    intro acc h1 h2
    rw [List.foldl_cons]
    refine ih _ ?_ ?_
    · dsimp only
      by_cases hj : newIdxAt ni i ≥ 0
      · rw [if_pos hj]
        dsimp only
        omega
      · rw [if_neg hj]
        exact h1
    · dsimp only
      by_cases hj : newIdxAt ni i ≥ 0
      · rw [if_pos hj]
        dsimp only
        rcases newIdxAt_cases ni i with hc | hc
        · have hc2 : newIdxAt ni i = -1 := hc
          omega
        · rcases hni _ hc with hcc | hcc
          · have hc2 : newIdxAt ni i = -1 := hcc
            omega
          · omega
      · rw [if_neg hj]
        exact h2

/-- Auxiliary: a group's recomputed range lies inside the new count. -/
theorem zombieGroupRange_bounds (ni : List ℤ) (nc : ℕ)
    (hni : ∀ j ∈ ni, j = b2_invalidParticleIndex ∨ (0 ≤ j ∧ j < (nc : ℤ)))
    (g : b2ParticleGroup) : 0 ≤ (zombieGroupRange ni nc g).1 ∧
      (zombieGroupRange ni nc g).2.1 ≤ (nc : ℤ) := by
  unfold zombieGroupRange
  exact zgAux_bounds ni nc hni _ _ (Int.natCast_nonneg nc)
    (Int.natCast_nonneg nc)

/-- Auxiliary: the group-range fold over an identity newIndices map returns
the clamped original range. -/
theorem zgAux_id (ni : List ℤ) (nc : ℕ)
    (hid : ∀ i : ℤ, 0 ≤ i → i < (nc : ℤ) → newIdxAt ni i = i) :
    ∀ (n : ℕ) (f l : ℤ), (l - f).toNat = n → 0 ≤ f → f < l → l ≤ (nc : ℤ) →
    ∀ acc : ℤ × ℤ × Bool,
    (intRange f l).foldl (fun (acc : ℤ × ℤ × Bool) i =>
        let j := newIdxAt ni i
        if j ≥ 0 then (min acc.1 j, max acc.2.1 (j + 1), acc.2.2)
        else (acc.1, acc.2.1, true)) acc =
      (min acc.1 f, max acc.2.1 l, acc.2.2) := by
  intro n
  induction n with
  | zero => intro f l h0 hf hfl hl acc; exact absurd h0 (by omega)
  | succ n ih =>
    intro f l h0 hf hfl hl acc
    rw [intRange_cons f l hfl, List.foldl_cons]
    have hstep : (let j := newIdxAt ni f
        if j ≥ 0 then (min acc.1 j, max acc.2.1 (j + 1), acc.2.2)
        else (acc.1, acc.2.1, true)) =
        (min acc.1 f, max acc.2.1 (f + 1), acc.2.2) := by
      show (if newIdxAt ni f ≥ 0 then
          (min acc.1 (newIdxAt ni f), max acc.2.1 (newIdxAt ni f + 1),
            acc.2.2)
        else (acc.1, acc.2.1, true)) = _
      rw [hid f hf (by omega), if_pos hf]
    rw [hstep]
    by_cases hfl2 : f + 1 < l
    · rw [ih (f + 1) l (by omega) (by omega) hfl2 hl _]
      dsimp only
      simp only [Prod.mk.injEq]
      refine ⟨by omega, by omega, trivial⟩
    · have hfl3 : l = f + 1 := by omega
      rw [intRange_nil (f + 1) l (by omega)]
      dsimp only [List.foldl_nil]
      rw [hfl3]

/-- Auxiliary: a valid group range is reproduced by the range fold when
newIndices is the identity on live indices. -/
theorem zombieGroupRange_id (ni : List ℤ) (nc : ℕ)
    (hid : ∀ i : ℤ, 0 ≤ i → i < (nc : ℤ) → newIdxAt ni i = i)
    (g : b2ParticleGroup) (h0 : 0 ≤ g.firstIndex)
    (hlt : g.firstIndex < g.lastIndex) (hle : g.lastIndex ≤ (nc : ℤ)) :
    zombieGroupRange ni nc g = (g.firstIndex, g.lastIndex, false) := by
  unfold zombieGroupRange
  rw [zgAux_id ni nc hid ((g.lastIndex - g.firstIndex).toNat) _ _ rfl h0 hlt
    hle _]
  dsimp only
  simp only [Prod.mk.injEq]
  refine ⟨by omega, by omega, trivial⟩

/-- Auxiliary: the range fold of an already empty group is the initial
accumulator. -/
theorem zombieGroupRange_empty (ni : List ℤ) (nc : ℕ) (g : b2ParticleGroup)
    (h : g.lastIndex ≤ g.firstIndex) :
    zombieGroupRange ni nc g = ((nc : ℤ), 0, false) := by
  unfold zombieGroupRange
  rw [intRange_nil _ _ h]
  rfl

/-- Auxiliary: one group-loop iteration only pads the tracked state. -/
theorem step_fst_stepEq (ni : List ℤ) (nc : ℕ)
    (acc : b2ParticleSystem × List b2ParticleGroup) (g : b2ParticleGroup) :
    stepEq acc.1 (b2ParticleSystem.solveZombieGroupStep ni nc acc g).1 := by
  unfold b2ParticleSystem.solveZombieGroupStep
  dsimp only
  split
  · split
    · exact sgf_stepEq _ _ _
    · exact stepEq_refl _
  · split
    · exact sgf_stepEq _ _ _
    · exact stepEq_refl _

/-- Auxiliary: the updated group's flag word out of SetParticleGroupFlags. -/
theorem sgf_snd_flags (st : b2ParticleSystem) (g : b2ParticleGroup) (f : ℕ) :
    (st.setParticleGroupFlagsOn g f).2.groupFlags = f ∨
      (st.setParticleGroupFlagsOn g f).2.groupFlags =
        f ||| b2_particleGroupNeedsUpdateDepth := by
  unfold b2ParticleSystem.setParticleGroupFlagsOn
  dsimp only
  split
  · exact Or.inr rfl
  · exact Or.inl rfl

/-- Auxiliary: one group-loop iteration appends exactly one group whose
range lies in the new count, an empty range only surviving together with
the may-be-empty flag or the scheduled-destruction flag. -/
theorem step_snd (ni : List ℤ) (nc : ℕ)
    (hni : ∀ j ∈ ni, j = b2_invalidParticleIndex ∨ (0 ≤ j ∧ j < (nc : ℤ)))
    (acc : b2ParticleSystem × List b2ParticleGroup) (g : b2ParticleGroup) :
    ∃ g2, (b2ParticleSystem.solveZombieGroupStep ni nc acc g).2 =
        acc.2 ++ [g2] ∧
      (0 ≤ g2.firstIndex ∧ g2.lastIndex ≤ (nc : ℤ)) ∧
      (g2.firstIndex < g2.lastIndex ∨
        (g2.firstIndex = 0 ∧ g2.lastIndex = 0 ∧
          (g2.groupFlags &&& b2_particleGroupCanBeEmpty ≠ 0 ∨
            g2.groupFlags &&& b2_particleGroupWillBeDestroyed ≠ 0))) := by
  unfold b2ParticleSystem.solveZombieGroupStep
  dsimp only
  have hb := zombieGroupRange_bounds ni nc hni g
  split
  case isTrue hr =>
    split
    case isTrue hs =>
      refine ⟨_, rfl, ?_, ?_⟩
      · rw [(sgf_snd_indices _ _ _).1, (sgf_snd_indices _ _ _).2]
        exact ⟨hb.1, hb.2⟩
      · left
        rw [(sgf_snd_indices _ _ _).1, (sgf_snd_indices _ _ _).2]
        exact hr
    case isFalse hs => exact ⟨_, rfl, ⟨hb.1, hb.2⟩, Or.inl hr⟩
  case isFalse hr =>
    split
    case isTrue hs =>
      refine ⟨_, rfl, ?_, ?_⟩
      · rw [(sgf_snd_indices _ _ _).1, (sgf_snd_indices _ _ _).2]
        exact ⟨le_refl 0, Int.natCast_nonneg nc⟩
      · refine Or.inr ⟨(sgf_snd_indices _ _ _).1, (sgf_snd_indices _ _ _).2,
          Or.inr ?_⟩
        rcases sgf_snd_flags acc.1 _ _ with hf | hf
        · rw [hf]
          apply and_ne_zero_of_testBit _ _ 3
          · rw [Nat.testBit_or,
              show b2_particleGroupWillBeDestroyed.testBit 3 = true from by
                decide]
            simp
          · decide
        · rw [hf]
          apply and_ne_zero_of_testBit _ _ 3
          · rw [Nat.testBit_or, Nat.testBit_or,
              show b2_particleGroupWillBeDestroyed.testBit 3 = true from by
                decide]
            simp
          · decide
    case isFalse hs =>
      exact ⟨_, rfl, ⟨le_refl 0, Int.natCast_nonneg nc⟩,
        Or.inr ⟨rfl, rfl, Or.inl hs⟩⟩

/-- Auxiliary: the whole group loop only pads the tracked state. -/
theorem foldGroups_fst_stepEq (ni : List ℤ) (nc : ℕ) :
    ∀ (gs : List b2ParticleGroup)
      (acc : b2ParticleSystem × List b2ParticleGroup),
    stepEq acc.1
      ((gs.foldl (b2ParticleSystem.solveZombieGroupStep ni nc) acc).1) := by
  intro gs
  induction gs with
  | nil => intro acc; exact stepEq_refl _
  | cons g gs ih =>
    intro acc
    rw [List.foldl_cons]
    exact stepEq_trans _ _ _ (step_fst_stepEq ni nc acc g) (ih _)

/-- Auxiliary: every group surviving the group loop has its range in the
new count, an empty range only with the may-be-empty or scheduled-
destruction flags. -/
theorem foldGroups_snd (ni : List ℤ) (nc : ℕ)
    (hni : ∀ j ∈ ni, j = b2_invalidParticleIndex ∨ (0 ≤ j ∧ j < (nc : ℤ))) :
    ∀ (gs : List b2ParticleGroup)
      (acc : b2ParticleSystem × List b2ParticleGroup),
    (∀ h2 ∈ acc.2, (0 ≤ h2.firstIndex ∧ h2.lastIndex ≤ (nc : ℤ)) ∧
      (h2.firstIndex < h2.lastIndex ∨
        (h2.firstIndex = 0 ∧ h2.lastIndex = 0 ∧
          (h2.groupFlags &&& b2_particleGroupCanBeEmpty ≠ 0 ∨
            h2.groupFlags &&& b2_particleGroupWillBeDestroyed ≠ 0)))) →
    ∀ h2 ∈ (gs.foldl (b2ParticleSystem.solveZombieGroupStep ni nc) acc).2,
      (0 ≤ h2.firstIndex ∧ h2.lastIndex ≤ (nc : ℤ)) ∧
      (h2.firstIndex < h2.lastIndex ∨
        (h2.firstIndex = 0 ∧ h2.lastIndex = 0 ∧
          (h2.groupFlags &&& b2_particleGroupCanBeEmpty ≠ 0 ∨
            h2.groupFlags &&& b2_particleGroupWillBeDestroyed ≠ 0))) := by
  intro gs
  induction gs with
  | nil => intro acc hacc; exact hacc
  | cons g gs ih =>
    intro acc hacc
    rw [List.foldl_cons]
    apply ih
    obtain ⟨g2, he, hq1, hq2⟩ := step_snd ni nc hni acc g
    rw [he]
    intro h2 hh2
    rcases List.mem_append.mp hh2 with hm | hm
    · exact hacc h2 hm
    · rw [List.mem_singleton.mp hm]
      exact ⟨hq1, hq2⟩

/-- Auxiliary: destroying one group only pads the tracked state. -/
theorem destroyAux_stepEq (st : b2ParticleSystem) (g : b2ParticleGroup) :
    stepEq st (st.destroyParticleGroupAux g) := by
  unfold b2ParticleSystem.destroyParticleGroupAux
  dsimp only
  exact stepEq_updGCount st
    { (st.setParticleGroupFlagsOn g 0).1 with
      groupIdxData := nullGroupRange
        (st.setParticleGroupFlagsOn g 0).1.groupIdxData g.firstIndex
        g.lastIndex }
    (stepEq_updGIdx st (st.setParticleGroupFlagsOn g 0).1
      (sgf_stepEq st g 0) _) _

/-- Auxiliary: the destruction loop only pads the tracked state. -/
theorem destroyLoop_fst_stepEq :
    ∀ (gl : List b2ParticleGroup) (st : b2ParticleSystem),
    stepEq st (b2ParticleSystem.solveZombieDestroyLoop st gl).1 := by
  intro gl
  induction gl with
  | nil => intro st; exact stepEq_refl st
  | cons g gl ih =>
    intro st
    unfold b2ParticleSystem.solveZombieDestroyLoop
    split
    · exact stepEq_trans _ _ _ (destroyAux_stepEq st g) (ih _)
    · dsimp only
      exact ih st

/-- Auxiliary: the destruction loop keeps exactly the input groups that are
not scheduled for destruction, unchanged. -/
theorem destroyLoop_snd :
    ∀ (gl : List b2ParticleGroup) (st : b2ParticleSystem),
    ∀ g2 ∈ (b2ParticleSystem.solveZombieDestroyLoop st gl).2,
      g2 ∈ gl ∧ g2.groupFlags &&& b2_particleGroupWillBeDestroyed = 0 := by
  intro gl
  induction gl with
  | nil =>
    intro st g2 h
    exact absurd h (by simp [b2ParticleSystem.solveZombieDestroyLoop])
  | cons g gl ih =>
    intro st g2 h
    unfold b2ParticleSystem.solveZombieDestroyLoop at h
    by_cases hw : g.groupFlags &&& b2_particleGroupWillBeDestroyed ≠ 0
    · rw [if_pos hw] at h
      obtain ⟨hm, hf⟩ := ih _ g2 h
      exact ⟨List.mem_cons_of_mem g hm, hf⟩
    · rw [if_neg hw] at h
      dsimp only at h
      rcases List.mem_cons.mp h with hm | hm
      · subst hm
        exact ⟨List.mem_cons_self _ _, by simpa using hw⟩
      · obtain ⟨hm2, hf⟩ := ih st g2 hm
        exact ⟨List.mem_cons_of_mem g hm2, hf⟩

/-- Auxiliary: the destruction loop is the identity when no group is
scheduled for destruction. -/
theorem destroyLoop_id :
    ∀ (gl : List b2ParticleGroup) (st : b2ParticleSystem),
    (∀ g ∈ gl, g.groupFlags &&& b2_particleGroupWillBeDestroyed = 0) →
    b2ParticleSystem.solveZombieDestroyLoop st gl = (st, gl) := by
  intro gl
  induction gl with
  | nil => intro st h; rfl
  | cons g gl ih =>
    intro st h
    unfold b2ParticleSystem.solveZombieDestroyLoop
    rw [if_neg (by simpa using h g (List.mem_cons_self g gl))]
    dsimp only
    rw [ih st (fun g2 hg2 => h g2 (List.mem_cons_of_mem g hg2))]

/-- Auxiliary: SolveZombie decomposed into its named stages. -/
theorem solveZombie_eq (st : b2ParticleSystem) :
    st.solveZombie = { (szDl st).1 with groupList := (szDl st).2 } := rfl

/-- Auxiliary: a nonnegative remapped index is below the new count. -/
theorem remapped_lt (ni : List ℤ) (nc : ℕ)
    (hni : ∀ j ∈ ni, j = b2_invalidParticleIndex ∨ (0 ≤ j ∧ j < (nc : ℤ)))
    (v i : ℤ) (hv : v = newIdxAt ni i) (h0 : 0 ≤ v) : v < (nc : ℤ) := by
  rcases newIdxAt_cases ni i with hc | hc
  · have h1 : v = -1 := hv.trans hc
    omega
  · rw [← hv] at hc
    rcases hni v hc with hcc | hcc
    · have h1 : v = -1 := hcc
      omega
    · exact hcc.2

/-- Auxiliary: the SolveZombie postcondition holds of every run. -/
theorem solveZombie_post (st : b2ParticleSystem) :
    SolveZombiePost st st.solveZombie := by
  have hni : ∀ j ∈ szNi st, j = b2_invalidParticleIndex ∨
      (0 ≤ j ∧ j < (survivorCount (szFlP st) : ℤ)) := by
    intro j hj
    rcases zombieNI_bound (szFlP st) 0 j hj with h | h
    · exact Or.inl h
    · refine Or.inr ⟨h.1, ?_⟩
      have h2 := h.2
      omega
  have hA : stepEq (szStage2 st) (szGl st).1 :=
    foldGroups_fst_stepEq (szNi st) (survivorCount (szFlP st))
      (szStage2 st).groupList (szStage2 st, [])
  have hB : stepEq (szStage4 st) (szDl st).1 :=
    destroyLoop_fst_stepEq (szStage4 st).groupList (szStage4 st)
  obtain ⟨a1, a2, a3, a4, a5, a6, a7, a8, a9, a10, a11, a12, a13⟩ := hA
  obtain ⟨b1, b2, b3, b4, b5, b6, b7, b8, b9, b10, b11, b12, b13⟩ := hB
  rw [solveZombie_eq st]
  refine ⟨b1, extendsBy_trans 0 _ _ _ a4 b4,
    extendsBy_trans Vec2.zero _ _ _ a5 b5,
    extendsBy_trans Vec2.zero _ _ _ a6 b6,
    optExtendsBy_trans 0 _ _ _ a7 b7, optExtendsBy_trans 0 _ _ _ a8 b8,
    b2, b3, ?_, ?_, ?_, ?_, ?_, ?_⟩
  · intro pr hpr
    have hpr2 : pr ∈ (szDl st).1.proxies := hpr
    rw [b9] at hpr2
    have hpr3 : pr ∈ (szGl st).1.proxies := hpr2
    rw [a9] at hpr3
    have hpr4 : pr ∈ (st.proxies.map
        (fun (x : Proxy) =>
          { x with index := newIdxAt (szNi st) x.index })).filter
        (fun x => decide (0 ≤ x.index)) := hpr3
    obtain ⟨hmem, hpos⟩ := List.mem_filter.mp hpr4
    have hpos2 : (0 : ℤ) ≤ pr.index := by simpa using hpos
    obtain ⟨x, hx, hxe⟩ := List.mem_map.mp hmem
    have hidx : pr.index = newIdxAt (szNi st) x.index := by rw [← hxe]
    exact ⟨hpos2, remapped_lt _ _ hni _ _ hidx hpos2⟩
  · intro ct hct
    have h2 : ct ∈ (szDl st).1.contacts := hct
    rw [b10] at h2
    have h3 : ct ∈ (szGl st).1.contacts := h2
    rw [a10] at h3
    have h4 : ct ∈ (st.contacts.map
        (fun (x : b2ParticleContact) => { x with
          indexA := newIdxAt (szNi st) x.indexA
          indexB := newIdxAt (szNi st) x.indexB })).filter
        (fun x => decide (0 ≤ x.indexA) && decide (0 ≤ x.indexB)) := h3
    obtain ⟨hmem, hpos⟩ := List.mem_filter.mp h4
    rw [Bool.and_eq_true] at hpos
    obtain ⟨hpA, hpB⟩ := hpos
    have hpA2 : (0 : ℤ) ≤ ct.indexA := by simpa using hpA
    have hpB2 : (0 : ℤ) ≤ ct.indexB := by simpa using hpB
    obtain ⟨x, hx, hxe⟩ := List.mem_map.mp hmem
    have hiA : ct.indexA = newIdxAt (szNi st) x.indexA := by rw [← hxe]
    have hiB : ct.indexB = newIdxAt (szNi st) x.indexB := by rw [← hxe]
    exact ⟨⟨hpA2, remapped_lt _ _ hni _ _ hiA hpA2⟩,
      ⟨hpB2, remapped_lt _ _ hni _ _ hiB hpB2⟩⟩
  · intro ct hct
    have h2 : ct ∈ (szDl st).1.bodyContacts := hct
    rw [b11] at h2
    have h3 : ct ∈ (szGl st).1.bodyContacts := h2
    rw [a11] at h3
    have h4 : ct ∈ (st.bodyContacts.map
        (fun (x : b2ParticleBodyContact) =>
          { x with index := newIdxAt (szNi st) x.index })).filter
        (fun x => decide (0 ≤ x.index)) := h3
    obtain ⟨hmem, hpos⟩ := List.mem_filter.mp h4
    have hpos2 : (0 : ℤ) ≤ ct.index := by simpa using hpos
    obtain ⟨x, hx, hxe⟩ := List.mem_map.mp hmem
    have hidx : ct.index = newIdxAt (szNi st) x.index := by rw [← hxe]
    exact ⟨hpos2, remapped_lt _ _ hni _ _ hidx hpos2⟩
  · intro pr hpr
    have h2 : pr ∈ (szDl st).1.pairs := hpr
    rw [b12] at h2
    have h3 : pr ∈ (szGl st).1.pairs := h2
    rw [a12] at h3
    have h4 : pr ∈ (st.pairs.map
        (fun (x : Pair) => { x with
          indexA := newIdxAt (szNi st) x.indexA
          indexB := newIdxAt (szNi st) x.indexB })).filter
        (fun x => decide (0 ≤ x.indexA) && decide (0 ≤ x.indexB)) := h3
    obtain ⟨hmem, hpos⟩ := List.mem_filter.mp h4
    rw [Bool.and_eq_true] at hpos
    obtain ⟨hpA, hpB⟩ := hpos
    have hpA2 : (0 : ℤ) ≤ pr.indexA := by simpa using hpA
    have hpB2 : (0 : ℤ) ≤ pr.indexB := by simpa using hpB
    obtain ⟨x, hx, hxe⟩ := List.mem_map.mp hmem
    have hiA : pr.indexA = newIdxAt (szNi st) x.indexA := by rw [← hxe]
    have hiB : pr.indexB = newIdxAt (szNi st) x.indexB := by rw [← hxe]
    exact ⟨⟨hpA2, remapped_lt _ _ hni _ _ hiA hpA2⟩,
      ⟨hpB2, remapped_lt _ _ hni _ _ hiB hpB2⟩⟩
  · intro tr htr
    have h2 : tr ∈ (szDl st).1.triads := htr
    rw [b13] at h2
    have h3 : tr ∈ (szGl st).1.triads := h2
    rw [a13] at h3
    have h4 : tr ∈ (st.triads.map
        (fun (x : Triad) => { x with
          indexA := newIdxAt (szNi st) x.indexA
          indexB := newIdxAt (szNi st) x.indexB
          indexC := newIdxAt (szNi st) x.indexC })).filter
        (fun x => decide (0 ≤ x.indexA) && decide (0 ≤ x.indexB) &&
          decide (0 ≤ x.indexC)) := h3
    obtain ⟨hmem, hpos⟩ := List.mem_filter.mp h4
    rw [Bool.and_eq_true, Bool.and_eq_true] at hpos
    obtain ⟨⟨hpA, hpB⟩, hpC⟩ := hpos
    have hpA2 : (0 : ℤ) ≤ tr.indexA := by simpa using hpA
    have hpB2 : (0 : ℤ) ≤ tr.indexB := by simpa using hpB
    have hpC2 : (0 : ℤ) ≤ tr.indexC := by simpa using hpC
    obtain ⟨x, hx, hxe⟩ := List.mem_map.mp hmem
    have hiA : tr.indexA = newIdxAt (szNi st) x.indexA := by rw [← hxe]
    have hiB : tr.indexB = newIdxAt (szNi st) x.indexB := by rw [← hxe]
    have hiC : tr.indexC = newIdxAt (szNi st) x.indexC := by rw [← hxe]
    exact ⟨⟨hpA2, remapped_lt _ _ hni _ _ hiA hpA2⟩,
      ⟨hpB2, remapped_lt _ _ hni _ _ hiB hpB2⟩,
      ⟨hpC2, remapped_lt _ _ hni _ _ hiC hpC2⟩⟩
  · intro g hg
    have hg2 : g ∈ (szDl st).2 := hg
    obtain ⟨hm4, hwb⟩ := destroyLoop_snd (szStage4 st).groupList
      (szStage4 st) g hg2
    have hm5 : g ∈ (szGl st).2 := hm4
    have hq := foldGroups_snd (szNi st) (survivorCount (szFlP st)) hni
      (szStage2 st).groupList (szStage2 st, [])
      (by intro h2 hh2; exact absurd hh2 (List.not_mem_nil h2)) g hm5
    obtain ⟨⟨hq1, hq2⟩, hq3⟩ := hq
    refine ⟨⟨hq1, hq2⟩, hwb, ?_⟩
    rcases hq3 with h | ⟨e1, e2, h⟩
    · exact Or.inl h
    · rcases h with h | h
      · exact Or.inr ⟨e1, e2, h⟩
      · exact absurd hwb h

/-- C1: After SolveZombie runs, the particle count decreases by exactly the
number of scanned particles whose flags contained the zombie flag; every
surviving particle keeps its flags, position, velocity, color and userData,
moving from old index i to new index equal to the number of non-zombie
particles before i; and afterwards every group's [firstIndex, lastIndex)
range contains only live, non-zombie particle indices. -/
theorem solveZombie_spec (st : b2ParticleSystem)
    (hfl : st.count ≤ st.flagsData.length)
    (hpos : st.count ≤ st.positionData.length)
    (hvel : st.count ≤ st.velocityData.length)
    (hcol : ∀ l, st.colorData = some l → st.count ≤ l.length)
    (hud : ∀ l, st.userDataData = some l → st.count ≤ l.length) :
    st.solveZombie.count +
      (st.flagsData.take st.count).countP (fun f => isZombieFlags f) =
      st.count ∧
    (∀ i : ℕ, i < st.count → isZombieFlags (st.getFlags (i : ℤ)) = false →
      (st.flagsData.take i).countP (fun f => !(isZombieFlags f)) <
        st.solveZombie.count ∧
      st.solveZombie.getFlags
        (((st.flagsData.take i).countP (fun f => !(isZombieFlags f)) : ℕ) :
          ℤ) = st.getFlags (i : ℤ) ∧
      st.solveZombie.getPos
        (((st.flagsData.take i).countP (fun f => !(isZombieFlags f)) : ℕ) :
          ℤ) = st.getPos (i : ℤ) ∧
      st.solveZombie.getVel
        (((st.flagsData.take i).countP (fun f => !(isZombieFlags f)) : ℕ) :
          ℤ) = st.getVel (i : ℤ) ∧
      optD st.solveZombie.colorData
        ((st.flagsData.take i).countP (fun f => !(isZombieFlags f))) 0 =
        optD st.colorData i 0 ∧
      optD st.solveZombie.userDataData
        ((st.flagsData.take i).countP (fun f => !(isZombieFlags f))) 0 =
        optD st.userDataData i 0) ∧
    (∀ g ∈ st.solveZombie.groupList, ∀ j : ℤ,
      g.firstIndex ≤ j → j < g.lastIndex →
      0 ≤ j ∧ j < (st.solveZombie.count : ℤ) ∧
      isZombieFlags (st.solveZombie.getFlags j) = false) := by
  obtain ⟨p1, p2, p3, p4, p5, p6, p7, p8, p9, p10, p11, p12, p13, p14⟩ :=
    solveZombie_post st
  have hflPlen : (st.flagsData.take st.count).length = st.count := by
    rw [List.length_take]
    omega
  refine ⟨?_, ?_, ?_⟩
  · rw [p1]
    have hpart := countP_add_countP_not (fun f => isZombieFlags f)
      (st.flagsData.take st.count)
    unfold survivorCount
    omega
  · intro i hi hzi
    have hilen : i < (st.flagsData.take st.count).length := by omega
    have hgf : st.getFlags (i : ℤ) = st.flagsData.getD i 0 := by
      unfold b2ParticleSystem.getFlags
      rw [Int.toNat_ofNat]
    have hzi2 : isZombieFlags ((st.flagsData.take st.count).getD i 0) =
        false := by
      rw [getD_take_eq st.flagsData st.count i 0 hi (by omega), ← hgf]
      exact hzi
    have hktake : (st.flagsData.take st.count).take i =
        st.flagsData.take i := by
      rw [List.take_take]
      congr 1
      omega
    have hklt : (st.flagsData.take i).countP (fun f => !(isZombieFlags f)) <
        survivorCount (st.flagsData.take st.count) := by
      rw [← hktake]
      exact countP_take_lt _ i hilen hzi2
    have hlenc : (st.flagsData.take st.count).length ≤
        st.flagsData.length := by omega
    refine ⟨?_, ?_, ?_, ?_, ?_, ?_⟩
    · rw [p1]
      exact hklt
    · have ef : ∀ m : ℕ, st.solveZombie.getFlags ((m : ℕ) : ℤ) =
          st.solveZombie.flagsData.getD m 0 := by
        intro m
        unfold b2ParticleSystem.getFlags
        rw [Int.toNat_ofNat]
      rw [ef, extendsBy_getD 0 _ _ p2, ← hktake,
        compactBuf_getD (st.flagsData.take st.count) st.flagsData 0 i hilen
          hlenc hzi2, hgf]
    · have ef : ∀ m : ℕ, st.solveZombie.getPos ((m : ℕ) : ℤ) =
          st.solveZombie.positionData.getD m Vec2.zero := by
        intro m
        unfold b2ParticleSystem.getPos
        rw [Int.toNat_ofNat]
      have ef2 : st.getPos (i : ℤ) = st.positionData.getD i Vec2.zero := by
        unfold b2ParticleSystem.getPos
        rw [Int.toNat_ofNat]
      rw [ef, extendsBy_getD Vec2.zero _ _ p3, ← hktake,
        compactBuf_getD (st.flagsData.take st.count) st.positionData
          Vec2.zero i hilen (by omega) hzi2, ef2]
    · have ef : ∀ m : ℕ, st.solveZombie.getVel ((m : ℕ) : ℤ) =
          st.solveZombie.velocityData.getD m Vec2.zero := by
        intro m
        unfold b2ParticleSystem.getVel
        rw [Int.toNat_ofNat]
      have ef2 : st.getVel (i : ℤ) = st.velocityData.getD i Vec2.zero := by
        unfold b2ParticleSystem.getVel
        rw [Int.toNat_ofNat]
      rw [ef, extendsBy_getD Vec2.zero _ _ p4, ← hktake,
        compactBuf_getD (st.flagsData.take st.count) st.velocityData
          Vec2.zero i hilen (by omega) hzi2, ef2]
    · rw [optExtendsBy_optD 0 _ _ p5]
      cases hc : st.colorData with
      | none => rfl
      | some l =>
        show (compactBuf (st.flagsData.take st.count) l).getD
          ((st.flagsData.take i).countP (fun f => !(isZombieFlags f))) 0 =
          l.getD i 0
        rw [← hktake]
        exact compactBuf_getD _ l 0 i hilen
          (by rw [hflPlen]; exact hcol l hc) hzi2
    · rw [optExtendsBy_optD 0 _ _ p6]
      cases hc : st.userDataData with
      | none => rfl
      | some l =>
        show (compactBuf (st.flagsData.take st.count) l).getD
          ((st.flagsData.take i).countP (fun f => !(isZombieFlags f))) 0 =
          l.getD i 0
        rw [← hktake]
        exact compactBuf_getD _ l 0 i hilen
          (by rw [hflPlen]; exact hud l hc) hzi2
  · intro g hg j hj1 hj2
    obtain ⟨⟨hq1, hq2⟩, hwb, hdisj⟩ := p14 g hg
    have h0j : 0 ≤ j := le_trans hq1 hj1
    have hjlt : j < (survivorCount (st.flagsData.take st.count) : ℤ) :=
      lt_of_lt_of_le hj2 hq2
    refine ⟨h0j, ?_, ?_⟩
    · rw [p1]
      exact hjlt
    · unfold b2ParticleSystem.getFlags
      rw [extendsBy_getD 0 _ _ p2]
      exact compactBuf_prefix_nonzombie st.flagsData st.count j.toNat hfl
        (by omega)

/-- C1 witness: the SolveZombie specification instantiated on a two-particle
state whose second particle is a zombie. -/
theorem solveZombie_spec_witness :
    zombieWitnessState.solveZombie.count +
      (zombieWitnessState.flagsData.take zombieWitnessState.count).countP
        (fun f => isZombieFlags f) = zombieWitnessState.count ∧
    (∀ i : ℕ, i < zombieWitnessState.count →
      isZombieFlags (zombieWitnessState.getFlags (i : ℤ)) = false →
      (zombieWitnessState.flagsData.take i).countP
        (fun f => !(isZombieFlags f)) <
        zombieWitnessState.solveZombie.count ∧
      zombieWitnessState.solveZombie.getFlags
        (((zombieWitnessState.flagsData.take i).countP
          (fun f => !(isZombieFlags f)) : ℕ) : ℤ) =
        zombieWitnessState.getFlags (i : ℤ) ∧
      zombieWitnessState.solveZombie.getPos
        (((zombieWitnessState.flagsData.take i).countP
          (fun f => !(isZombieFlags f)) : ℕ) : ℤ) =
        zombieWitnessState.getPos (i : ℤ) ∧
      zombieWitnessState.solveZombie.getVel
        (((zombieWitnessState.flagsData.take i).countP
          (fun f => !(isZombieFlags f)) : ℕ) : ℤ) =
        zombieWitnessState.getVel (i : ℤ) ∧
      optD zombieWitnessState.solveZombie.colorData
        ((zombieWitnessState.flagsData.take i).countP
          (fun f => !(isZombieFlags f))) 0 =
        optD zombieWitnessState.colorData i 0 ∧
      optD zombieWitnessState.solveZombie.userDataData
        ((zombieWitnessState.flagsData.take i).countP
          (fun f => !(isZombieFlags f))) 0 =
        optD zombieWitnessState.userDataData i 0) ∧
    (∀ g ∈ zombieWitnessState.solveZombie.groupList, ∀ j : ℤ,
      g.firstIndex ≤ j → j < g.lastIndex →
      0 ≤ j ∧ j < (zombieWitnessState.solveZombie.count : ℤ) ∧
      isZombieFlags (zombieWitnessState.solveZombie.getFlags j) = false) :=
  solveZombie_spec zombieWitnessState (by decide) (by decide) (by decide)
    (fun l h => Option.noConfusion h) (fun l h => Option.noConfusion h)

/-- Auxiliary: mapping a function that fixes every member is the
identity. -/
theorem map_eq_self (l : List α) (f : α → α) (h : ∀ a ∈ l, f a = a) :
    l.map f = l := by
  induction l with
  | nil => rfl
  | cons a l ih =>
    rw [List.map_cons, h a (List.mem_cons_self a l),
      ih (fun x hx => h x (List.mem_cons_of_mem a hx))]

/-- Auxiliary: the group loop is the identity when newIndices fixes every
live index and every group either has a valid range inside the count or is
empty and allowed to be empty. -/
theorem foldGroups_id (ni : List ℤ) (nc : ℕ)
    (hid : ∀ i : ℤ, 0 ≤ i → i < (nc : ℤ) → newIdxAt ni i = i) :
    ∀ (gs : List b2ParticleGroup)
      (stacc : b2ParticleSystem × List b2ParticleGroup),
    (∀ g ∈ gs, (0 ≤ g.firstIndex ∧ g.lastIndex ≤ (nc : ℤ)) ∧
      (g.firstIndex < g.lastIndex ∨
        (g.firstIndex = 0 ∧ g.lastIndex = 0 ∧
          g.groupFlags &&& b2_particleGroupCanBeEmpty ≠ 0))) →
    gs.foldl (b2ParticleSystem.solveZombieGroupStep ni nc) stacc =
      (stacc.1, stacc.2 ++ gs) := by
  intro gs
  induction gs with
  | nil => intro stacc h; simp
  | cons g gs ih =>
    intro stacc h
    rw [List.foldl_cons]
    have hg := h g (List.mem_cons_self g gs)
    have hstep : b2ParticleSystem.solveZombieGroupStep ni nc stacc g =
        (stacc.1, stacc.2 ++ [g]) := by
      obtain ⟨h1g, h2g⟩ := hg
      obtain ⟨gid, gfi, gla, gfl, gst, gud, gtr⟩ := g
      dsimp only at h1g h2g
      unfold b2ParticleSystem.solveZombieGroupStep
      dsimp only
      rcases h2g with hlt | ⟨he1, he2, hcb⟩
      · rw [zombieGroupRange_id ni nc hid ⟨gid, gfi, gla, gfl, gst, gud, gtr⟩
          h1g.1 hlt h1g.2]
        dsimp only
        rw [if_pos hlt, if_neg (by simp)]
      · subst he1
        subst he2
        rw [zombieGroupRange_empty ni nc ⟨gid, 0, 0, gfl, gst, gud, gtr⟩
          (le_refl 0)]
        dsimp only
        rw [if_neg (by omega : ¬((nc : ℤ) < 0)), if_neg hcb]
    rw [hstep]
    rw [ih (stacc.1, stacc.2 ++ [g])
      (fun g2 hg2 => h g2 (List.mem_cons_of_mem g hg2))]
    simp

/-- Auxiliary: SolveZombie is the identity on a state with no zombie in the
scanned prefix, a clean union-flag cache, in-range stored indices and
well-formed groups. -/
theorem solveZombie_noop (s : b2ParticleSystem)
    (hlen : s.count ≤ s.flagsData.length)
    (hnz : ∀ i : ℕ, i < s.count →
      isZombieFlags (s.flagsData.getD i 0) = false)
    (hapf : s.allParticleFlags = survivorFlagsOr (s.flagsData.take s.count))
    (hnu : s.needsUpdateAllParticleFlags = false)
    (hprox : ∀ pr ∈ s.proxies, 0 ≤ pr.index ∧ pr.index < (s.count : ℤ))
    (hcont : ∀ ct ∈ s.contacts,
      (0 ≤ ct.indexA ∧ ct.indexA < (s.count : ℤ)) ∧
      (0 ≤ ct.indexB ∧ ct.indexB < (s.count : ℤ)))
    (hbody : ∀ ct ∈ s.bodyContacts, 0 ≤ ct.index ∧ ct.index < (s.count : ℤ))
    (hpairs : ∀ pr ∈ s.pairs,
      (0 ≤ pr.indexA ∧ pr.indexA < (s.count : ℤ)) ∧
      (0 ≤ pr.indexB ∧ pr.indexB < (s.count : ℤ)))
    (htriads : ∀ tr ∈ s.triads,
      (0 ≤ tr.indexA ∧ tr.indexA < (s.count : ℤ)) ∧
      (0 ≤ tr.indexB ∧ tr.indexB < (s.count : ℤ)) ∧
      (0 ≤ tr.indexC ∧ tr.indexC < (s.count : ℤ)))
    (hgroups : ∀ g ∈ s.groupList,
      (0 ≤ g.firstIndex ∧ g.lastIndex ≤ (s.count : ℤ)) ∧
      g.groupFlags &&& b2_particleGroupWillBeDestroyed = 0 ∧
      (g.firstIndex < g.lastIndex ∨
        (g.firstIndex = 0 ∧ g.lastIndex = 0 ∧
          g.groupFlags &&& b2_particleGroupCanBeEmpty ≠ 0))) :
    s.solveZombie = s := by
  have hflPlen : (szFlP s).length = s.count := by
    unfold szFlP
    rw [List.length_take]
    omega
  have hflPnz : ∀ f ∈ szFlP s, isZombieFlags f = false := by
    intro f hf
    obtain ⟨i, hi, he⟩ := List.mem_iff_getElem.mp hf
    have hic : i < s.count := by omega
    have he2 : (szFlP s)[i] = s.flagsData.getD i 0 := by
      unfold szFlP
      rw [List.getD_eq_getElem _ _ (lt_of_lt_of_le hic hlen)]
      exact List.getElem_take s.flagsData
    rw [← he, he2]
    exact hnz i hic
  have hnc : survivorCount (szFlP s) = s.count := by
    have h1 : (szFlP s).countP (fun f => !(isZombieFlags f)) =
        (szFlP s).length :=
      List.countP_eq_length.mpr (by intro a ha; simp [hflPnz a ha])
    unfold survivorCount
    rw [h1, hflPlen]
  have hid : ∀ i : ℤ, 0 ≤ i → i < (s.count : ℤ) →
      newIdxAt (szNi s) i = i := by
    intro i h0 hlt
    unfold newIdxAt szNi
    have hlen2 : i.toNat < (szFlP s).length := by omega
    rw [zombieNI_getD_id (szFlP s) hflPnz i.toNat hlen2]
    omega
  have hid2 : ∀ i : ℤ, 0 ≤ i → i < (survivorCount (szFlP s) : ℤ) →
      newIdxAt (szNi s) i = i := by
    intro i h0 hlt
    exact hid i h0 (by omega)
  have hcomp : b2ParticleSystem.solveZombieCompact (szFlP s) s = s := by
    unfold b2ParticleSystem.solveZombieCompact
    have hm1 : ∀ (o : Option (List ℚ)),
        o.map (fun l => compactBuf (szFlP s) l) = o := by
      intro o
      cases o with
      | none => rfl
      | some l =>
        show some (compactBuf (szFlP s) l) = some l
        rw [compactBuf_id _ hflPnz l]
    have hm2 : ∀ (o : Option (List ℕ)),
        o.map (fun l => compactBuf (szFlP s) l) = o := by
      intro o
      cases o with
      | none => rfl
      | some l =>
        show some (compactBuf (szFlP s) l) = some l
        rw [compactBuf_id _ hflPnz l]
    rw [compactBuf_id _ hflPnz, compactBuf_id _ hflPnz,
      compactBuf_id _ hflPnz, compactBuf_id _ hflPnz, hm1, hm1, hm2, hm2]
  have hremap : b2ParticleSystem.solveZombieRemap (szNi s) s = s := by
    unfold b2ParticleSystem.solveZombieRemap
    have hp : s.proxies.map (fun (pr : Proxy) =>
        { pr with index := newIdxAt (szNi s) pr.index }) = s.proxies := by
      apply map_eq_self
      intro pr hpr
      obtain ⟨h0, hlt⟩ := hprox pr hpr
      rw [hid pr.index h0 hlt]
    have hpf : s.proxies.filter (fun pr => decide (0 ≤ pr.index)) =
        s.proxies :=
      List.filter_eq_self.mpr
        (fun pr hpr => decide_eq_true (hprox pr hpr).1)
    have hc : s.contacts.map (fun (ct : b2ParticleContact) => { ct with
        indexA := newIdxAt (szNi s) ct.indexA
        indexB := newIdxAt (szNi s) ct.indexB }) = s.contacts := by
      apply map_eq_self
      intro ct hct
      obtain ⟨⟨hA0, hAlt⟩, hB0, hBlt⟩ := hcont ct hct
      rw [hid ct.indexA hA0 hAlt, hid ct.indexB hB0 hBlt]
    have hcf : s.contacts.filter (fun ct =>
        decide (0 ≤ ct.indexA) && decide (0 ≤ ct.indexB)) = s.contacts := by
      apply List.filter_eq_self.mpr
      intro ct hct
      obtain ⟨⟨hA0, _⟩, hB0, _⟩ := hcont ct hct
      rw [Bool.and_eq_true]
      exact ⟨decide_eq_true hA0, decide_eq_true hB0⟩
    have hb : s.bodyContacts.map (fun (ct : b2ParticleBodyContact) =>
        { ct with index := newIdxAt (szNi s) ct.index }) =
        s.bodyContacts := by
      apply map_eq_self
      intro ct hct
      obtain ⟨h0, hlt⟩ := hbody ct hct
      rw [hid ct.index h0 hlt]
    have hbf : s.bodyContacts.filter (fun ct => decide (0 ≤ ct.index)) =
        s.bodyContacts :=
      List.filter_eq_self.mpr
        (fun ct hct => decide_eq_true (hbody ct hct).1)
    have hpr2 : s.pairs.map (fun (pr : Pair) => { pr with
        indexA := newIdxAt (szNi s) pr.indexA
        indexB := newIdxAt (szNi s) pr.indexB }) = s.pairs := by
      apply map_eq_self
      intro pr hpr
      obtain ⟨⟨hA0, hAlt⟩, hB0, hBlt⟩ := hpairs pr hpr
      rw [hid pr.indexA hA0 hAlt, hid pr.indexB hB0 hBlt]
    have hprf : s.pairs.filter (fun pr =>
        decide (0 ≤ pr.indexA) && decide (0 ≤ pr.indexB)) = s.pairs := by
      apply List.filter_eq_self.mpr
      intro pr hpr
      obtain ⟨⟨hA0, _⟩, hB0, _⟩ := hpairs pr hpr
      rw [Bool.and_eq_true]
      exact ⟨decide_eq_true hA0, decide_eq_true hB0⟩
    have ht : s.triads.map (fun (tr : Triad) => { tr with
        indexA := newIdxAt (szNi s) tr.indexA
        indexB := newIdxAt (szNi s) tr.indexB
        indexC := newIdxAt (szNi s) tr.indexC }) = s.triads := by
      apply map_eq_self
      intro tr htr
      obtain ⟨⟨hA0, hAlt⟩, ⟨hB0, hBlt⟩, hC0, hClt⟩ := htriads tr htr
      rw [hid tr.indexA hA0 hAlt, hid tr.indexB hB0 hBlt,
        hid tr.indexC hC0 hClt]
    have htf : s.triads.filter (fun tr =>
        decide (0 ≤ tr.indexA) && decide (0 ≤ tr.indexB) &&
          decide (0 ≤ tr.indexC)) = s.triads := by
      apply List.filter_eq_self.mpr
      intro tr htr
      obtain ⟨⟨hA0, _⟩, ⟨hB0, _⟩, hC0, _⟩ := htriads tr htr
      rw [Bool.and_eq_true, Bool.and_eq_true]
      exact ⟨⟨decide_eq_true hA0, decide_eq_true hB0⟩, decide_eq_true hC0⟩
    rw [hp, hpf, hc, hcf, hb, hbf, hpr2, hprf, ht, htf]
  have hgroups2 : ∀ g ∈ s.groupList,
      (0 ≤ g.firstIndex ∧ g.lastIndex ≤ (survivorCount (szFlP s) : ℤ)) ∧
      (g.firstIndex < g.lastIndex ∨
        (g.firstIndex = 0 ∧ g.lastIndex = 0 ∧
          g.groupFlags &&& b2_particleGroupCanBeEmpty ≠ 0)) := by
    intro g hg
    obtain ⟨⟨h1, h2⟩, _, h4⟩ := hgroups g hg
    exact ⟨⟨h1, by omega⟩, h4⟩
  have hfold := foldGroups_id (szNi s) (survivorCount (szFlP s)) hid2
    s.groupList (s, []) hgroups2
  have hapf2 : survivorFlagsOr (szFlP s) = s.allParticleFlags := by
    unfold szFlP
    exact hapf.symm
  have h4 : b2ParticleSystem.szStage4 s = s := by
    unfold b2ParticleSystem.szStage4 b2ParticleSystem.szGl
      b2ParticleSystem.szStage2
    rw [hcomp, hremap, hfold]
    dsimp only [List.nil_append]
    rw [hnc, hapf2, ← hnu]
  have hdl : b2ParticleSystem.szDl s = (s, s.groupList) := by
    unfold b2ParticleSystem.szDl
    rw [h4]
    exact destroyLoop_id s.groupList s (fun g hg => (hgroups g hg).2.1)
  rw [solveZombie_eq s, hdl]

/-- C8: SolveZombie is idempotent: with no new zombies marked after a run,
a second run returns the state of the first run unchanged. -/
theorem solveZombie_idempotent (st : b2ParticleSystem)
    (hfl : st.count ≤ st.flagsData.length) :
    st.solveZombie.solveZombie = st.solveZombie := by
  obtain ⟨p1, p2, p3, p4, p5, p6, p7, p8, p9, p10, p11, p12, p13, p14⟩ :=
    solveZombie_post st
  have hflPlen0 : (st.flagsData.take st.count).length = st.count := by
    rw [List.length_take]
    omega
  have hcountle : survivorCount (st.flagsData.take st.count) ≤ st.count := by
    have h1 : survivorCount (st.flagsData.take st.count) ≤
        (st.flagsData.take st.count).length := List.countP_le_length _
    omega
  have hlen1 : (compactBuf (st.flagsData.take st.count)
      st.flagsData).length = st.flagsData.length :=
    compactBuf_length _ _ (by omega)
  have hexlen := extendsBy_length 0 _ _ p2
  have hslen : st.solveZombie.count ≤ st.solveZombie.flagsData.length := by
    rw [p1]
    omega
  apply solveZombie_noop st.solveZombie hslen
  · intro i hi
    rw [extendsBy_getD 0 _ _ p2]
    rw [p1] at hi
    exact compactBuf_prefix_nonzombie st.flagsData st.count i hfl hi
  · rw [p7]
    have htake : st.solveZombie.flagsData.take st.solveZombie.count =
        (st.flagsData.take st.count).filter
          (fun f => !(isZombieFlags f)) := by
      rw [p1, extendsBy_take 0 _ _ p2 _ (by omega)]
      unfold compactBuf
      rw [← survivorsOf_length (st.flagsData.take st.count) st.flagsData
        (by omega), List.take_left]
      exact survivorsOf_take_self st.flagsData st.count
    rw [htake]
    unfold survivorFlagsOr
    rw [List.filter_eq_self.mpr
      (fun a (ha : a ∈ (st.flagsData.take st.count).filter
          (fun f => !(isZombieFlags f))) => List.of_mem_filter ha)]
  · exact p8
  · intro pr hpr
    obtain ⟨h0, hlt⟩ := p9 pr hpr
    refine ⟨h0, ?_⟩
    rw [p1]
    exact hlt
  · intro ct hct
    obtain ⟨⟨hA0, hAlt⟩, hB0, hBlt⟩ := p10 ct hct
    rw [p1]
    exact ⟨⟨hA0, hAlt⟩, hB0, hBlt⟩
  · intro ct hct
    obtain ⟨h0, hlt⟩ := p11 ct hct
    rw [p1]
    exact ⟨h0, hlt⟩
  · intro pr hpr
    obtain ⟨⟨hA0, hAlt⟩, hB0, hBlt⟩ := p12 pr hpr
    rw [p1]
    exact ⟨⟨hA0, hAlt⟩, hB0, hBlt⟩
  · intro tr htr
    obtain ⟨⟨hA0, hAlt⟩, ⟨hB0, hBlt⟩, hC0, hClt⟩ := p13 tr htr
    rw [p1]
    exact ⟨⟨hA0, hAlt⟩, ⟨hB0, hBlt⟩, hC0, hClt⟩
  · intro g hg
    obtain ⟨⟨h1, h2⟩, h3, h4⟩ := p14 g hg
    rw [p1]
    exact ⟨⟨h1, h2⟩, h3, h4⟩

/-- C8 witness: idempotence instantiated on a two-particle state whose
second particle is a zombie. -/
theorem solveZombie_idempotent_witness :
    zombieWitnessState.solveZombie.solveZombie =
      zombieWitnessState.solveZombie :=
  solveZombie_idempotent zombieWitnessState (by decide)

end Theorems

end LiquidFun
